import Mathlib

/-!
Verification of the KnownRounds subsystem of xxfoundation/elixxir-primitives.

The Go source `knownRounds/knownRounds.go` is embedded shallowly below.
Round ids (`id.Round`, a Go `uint64`) are modelled as `Nat`, with an explicit
`% 2^64` wherever the Go code can wrap.  Go `int` values (bit positions,
`fuPos`) are modelled as `Int`; Go's truncated `%` and `/` on `int` are
`Int.tmod` and `Int.tdiv`.  Conversion `int(u)` of a `uint64` is `toInt64`.

The bit-buffer type `uint64Buff` lives in a file of the repository that is
not part of the given sources (only its callers are); its operations are
modelled from the specification, section 4.1, and are marked as such.
-/

/-- 2^64, the modulus of Go's uint64 arithmetic. -/
def U64 : Nat := 18446744073709551616

/-- Go uint64 subtraction `a - b` (wraps modulo 2^64). -/
def sub64 (a b : Nat) : Nat := (a % U64 + (U64 - b % U64)) % U64

/-- Go conversion `int64(u)` of a uint64 value: reinterpret the low 64 bits
as a two's-complement signed integer. -/
def toInt64 (u : Nat) : Int :=
  if u % U64 < 2 ^ 63 then ((u % U64 : Nat) : Int) else ((u % U64 : Nat) : Int) - (U64 : Int)

/-- Wrap a mathematical integer into the int64 range, as Go arithmetic does. -/
def wrap64 (x : Int) : Int := (x + 2 ^ 63) % (U64 : Int) - 2 ^ 63

/-- Embeds `abs` from knownRounds.go: `if n < 0 { return -n }; return n`.
The negation is Go int64 negation, which wraps on the minimal int64. -/
def goAbs (n : Int) : Int := if n < 0 then wrap64 (-n) else n

/-- Set bit `i` of a word. -/
def setBitN (w i : Nat) : Nat := w ||| 2 ^ i

/-- Clear bit `i` of a word. -/
def clearBitN (w i : Nat) : Nat := if w.testBit i then w - 2 ^ i else w

/-- Modelled from the spec (section 4.1 BitBuffer, the `uint64Buff` file is
absent from the given sources): bit position `p` (reduced modulo the
capacity `C = 64·W`) addresses word `p/64`, bit `63 - (p mod 64)`
(MSB-first).  `get` reads that bit. -/
def u64get (buff : List Nat) (pos : Int) : Bool :=
  let p : Nat := (pos % ((64 * buff.length : Nat) : Int)).toNat
  Nat.testBit (buff.getD (p / 64) 0) (63 - p % 64)

/-- Modelled from the spec: `set(pos)` writes 1 at `pos mod C`. -/
def u64set (buff : List Nat) (pos : Int) : List Nat :=
  let p : Nat := (pos % ((64 * buff.length : Nat) : Int)).toNat
  buff.set (p / 64) (setBitN (buff.getD (p / 64) 0) (63 - p % 64))

/-- Modelled from the spec: `clear(pos)` writes 0 at `pos mod C`. -/
def u64clear (buff : List Nat) (pos : Int) : List Nat :=
  let p : Nat := (pos % ((64 * buff.length : Nat) : Int)).toNat
  buff.set (p / 64) (clearBitN (buff.getD (p / 64) 0) (63 - p % 64))

/-- Modelled from the spec: `clearRange(start, end)` clears the bits at
absolute positions `start, start+1, …, end-1`, each taken mod `C`; the
range may wrap, and `start == end` is the empty range. -/
def u64clearRange (buff : List Nat) (start end_ : Int) : List Nat :=
  let n : Nat := ((end_ - start) % ((64 * buff.length : Nat) : Int)).toNat
  (List.range n).foldl (fun b k => u64clear b (start + Int.ofNat k)) buff

/-- Modelled from the spec: `convertLoc(pos) = (pos/64, pos mod 64)` with
`pos` taken mod `C`. -/
def u64convertLoc (buff : List Nat) (pos : Int) : Nat × Nat :=
  let p : Nat := (pos % ((64 * buff.length : Nat) : Int)).toNat
  (p / 64, p % 64)

/-- Modelled from the spec: `delta(start, end)` is the circular whole-word
span `((endBlock - startBlock) mod W) + 1`. -/
def u64delta (buff : List Nat) (start end_ : Int) : Nat :=
  let startBlock := (u64convertLoc buff start).1
  let endBlock := (u64convertLoc buff end_).1
  (((endBlock : Int) - (startBlock : Int)) % ((buff.length : Nat) : Int)).toNat + 1

/-- Modelled from the spec: `copy(start, end)` produces a fresh linear
buffer of `delta(start, end)` words holding bits `start … end-1` of the
source aligned to bit 0, zero padded. -/
def u64copy (buff : List Nat) (start end_ : Int) : List Nat :=
  let count : Nat := ((end_ - start) % ((64 * buff.length : Nat) : Int)).toNat
  (List.range (u64delta buff start end_)).map (fun w =>
    (List.range 64).foldl (fun acc j =>
      if w * 64 + j < count && u64get buff (start + ((w * 64 + j : Nat) : Int))
      then acc + 2 ^ (63 - j) else acc) 0)

/-- Modelled from the spec: `extend(n)` pads with zero words up to `n`
words; a buffer already at least `n` words long is returned unchanged. -/
def u64extend (buff : List Nat) (n : Nat) : List Nat :=
  if n ≤ buff.length then buff else buff ++ List.replicate (n - buff.length) 0

/-- Bitwise complement of a uint64 word. -/
def u64not (w : Nat) : Nat := w ^^^ (U64 - 1)

/-- Modelled from the spec: `implies(other)` is pointwise `¬self ∨ other`
over the common prefix of the two buffers. -/
def u64implies (buff other : List Nat) : List Nat :=
  List.zipWith (fun a b => u64not a ||| b) buff other

/-- Big-endian byte decomposition of one 64-bit word. -/
def wordToBytesBE (w : Nat) : List Nat :=
  (List.range 8).map (fun k => w / 2 ^ (8 * (7 - k)) % 256)

/-- Modelled from the spec: `marshal()` is the big-endian concatenation of
the words into `8·W` bytes. -/
def u64marshal (buff : List Nat) : List Nat := buff.flatMap wordToBytesBE

/-- Recompose one word from 8 big-endian bytes. -/
def bytesToWordBE (bs : List Nat) : Nat := bs.foldl (fun acc b => acc * 256 + b) 0

/-- Modelled from the spec: `unmarshal(bytes)` is the inverse of `marshal`,
consuming the bytes 8 at a time (the length must be a multiple of 8). -/
def u64unmarshal (bs : List Nat) : List Nat :=
  match bs with
  | b0 :: b1 :: b2 :: b3 :: b4 :: b5 :: b6 :: b7 :: rest =>
      bytesToWordBE [b0, b1, b2, b3, b4, b5, b6, b7] :: u64unmarshal rest
  | _ => []

/-- The KnownRounds structure of knownRounds.go (lines 26-31):
`bitStream` is the circular bit buffer, `firstUnchecked` and `lastChecked`
are round-id cursors (uint64), `fuPos` is the Go-int bit position of
`firstUnchecked` inside `bitStream`. -/
structure KnownRounds where
  bitStream : List Nat
  firstUnchecked : Nat
  lastChecked : Nat
  fuPos : Int
deriving DecidableEq, Repr

/-- `Len` (knownRounds.go lines 374-377): the capacity in rounds,
`len(bitStream) * 64`. -/
def KnownRounds.Len (kr : KnownRounds) : Nat := kr.bitStream.length * 64

/-- `NewKnownRound` (knownRounds.go lines 42-49): `(roundCapacity+63)/64`
zero words, both cursors 0, `fuPos` 0. -/
def NewKnownRound (roundCapacity : Nat) : KnownRounds :=
  { bitStream := List.replicate ((roundCapacity + 63) / 64) 0
    firstUnchecked := 0
    lastChecked := 0
    fuPos := 0 }

/-- `getBitStreamPos` (knownRounds.go lines 362-372): signed delta from
`firstUnchecked` (via uint64 subtraction reinterpreted as int64), then
`(fuPos + delta) % Len()` with Go's truncated `%`. -/
def getBitStreamPos (kr : KnownRounds) (rid : Nat) : Int :=
  let delta : Int :=
    if rid < kr.firstUnchecked then -(toInt64 (sub64 kr.firstUnchecked rid))
    else toInt64 (sub64 rid kr.firstUnchecked)
  Int.tmod (kr.fuPos + delta) ((kr.Len : Nat) : Int)

/-- `Checked` (knownRounds.go lines 119-129). -/
def Checked (kr : KnownRounds) (rid : Nat) : Bool :=
  if rid < kr.firstUnchecked then true
  else if kr.lastChecked < rid then false
  else u64get kr.bitStream (getBitStreamPos kr rid)

/-- The loop of `migrateFirstUnchecked` (knownRounds.go lines 206-208):
advance while the bit at the current round is set and the round is below
`lastChecked`.  The fuel `lastChecked - rid` bounds the iteration count
exactly as the loop guard does. -/
def migrateLoop (kr : KnownRounds) : Nat → Nat → Nat
  | 0, r => r
  | fuel + 1, r =>
      if u64get kr.bitStream (getBitStreamPos kr r) && decide (r < kr.lastChecked)
      then migrateLoop kr fuel (r + 1)
      else r

/-- `migrateFirstUnchecked` (knownRounds.go lines 205-211): walk to the next
unchecked round (or `lastChecked`), then re-anchor `fuPos` and
`firstUnchecked`. -/
def migrateFirstUnchecked (kr : KnownRounds) (rid : Nat) : KnownRounds :=
  let r := migrateLoop kr (kr.lastChecked - rid) rid
  { kr with fuPos := getBitStreamPos kr r, firstUnchecked := r }

/-- The shared `check` body (knownRounds.go lines 156-193), statement for
statement: early return below `firstUnchecked`; set the bit; extend the
window when `rid > lastChecked`, clearing the newly exposed range; the
single-bit-window advance or the `migrateFirstUnchecked` call when the bit
pinned by `firstUnchecked` was just set; the lap correction; set again. -/
def check (kr : KnownRounds) (rid : Nat) : KnownRounds :=
  if rid < kr.firstUnchecked then kr
  else
    let pos := getBitStreamPos kr rid
    let kr1 := { kr with bitStream := u64set kr.bitStream pos }
    let kr2 :=
      if kr1.lastChecked < rid then
        { kr1 with
          bitStream := u64clearRange kr1.bitStream
            (getBitStreamPos kr1 ((kr1.lastChecked + 1) % U64)) pos
          lastChecked := rid }
      else kr1
    let kr3 :=
      if getBitStreamPos kr2 kr2.firstUnchecked = pos then
        if getBitStreamPos kr2 kr2.lastChecked = pos then
          let fuPos' := getBitStreamPos kr2 ((rid + 1) % U64)
          { kr2 with
            fuPos := fuPos'
            firstUnchecked := (rid + 1) % U64
            lastChecked := (rid + 1) % U64
            bitStream := u64clear kr2.bitStream fuPos' }
        else migrateFirstUnchecked kr2 rid
      else kr2
    let kr4 :=
      if kr3.firstUnchecked < rid ∧ kr3.Len ≤ sub64 rid kr3.firstUnchecked then
        let newFu := sub64 ((rid + 1) % U64) kr3.Len
        let kr3' := { kr3 with fuPos := getBitStreamPos kr3 newFu, firstUnchecked := newFu }
        migrateFirstUnchecked kr3' rid
      else kr3
    { kr4 with bitStream := u64set kr4.bitStream pos }

/-- The capacity guard of `Check` (knownRounds.go line 136):
`abs(int(lastChecked-rid)) / (len(bitStream)*64) > 0`. -/
def checkPanics (kr : KnownRounds) (rid : Nat) : Bool :=
  decide (0 < Int.tdiv (goAbs (toInt64 (sub64 kr.lastChecked rid))) ((kr.Len : Nat) : Int))

/-- `Check` (knownRounds.go lines 135-142): the strict form; `none` models
the fatal panic. -/
def Check (kr : KnownRounds) (rid : Nat) : Option KnownRounds :=
  if checkPanics kr rid then none else some (check kr rid)

/-- `Forward` (knownRounds.go lines 214-222). -/
def Forward (kr : KnownRounds) (rid : Nat) : KnownRounds :=
  if kr.lastChecked < rid then
    { kr with
      firstUnchecked := rid
      lastChecked := rid
      fuPos := ((rid % 64 : Nat) : Int) }
  else if kr.firstUnchecked ≤ rid then migrateFirstUnchecked kr rid
  else kr

/-- `ForceCheck` (knownRounds.go lines 149-154): same guard as `Check`, but
on failure slide the window with `Forward(rid - Len())` (uint64 arithmetic,
hence the underflow for small `rid`) and proceed. -/
def ForceCheck (kr : KnownRounds) (rid : Nat) : KnownRounds :=
  let kr' := if checkPanics kr rid then Forward kr (sub64 rid kr.Len) else kr
  check kr' rid

/-- `DiskKnownRounds` (knownRounds.go lines 35-38): the serialization
envelope.  `BitStream` is a Go `[]byte`, modelled as a list of byte
values. -/
structure DiskKnownRounds where
  BitStream : List Nat
  FirstUnchecked : Nat
  LastChecked : Nat
deriving DecidableEq, Repr

/-- The number of words of the compressed active span computed by `Marshal`
(knownRounds.go line 58). -/
def marshalSpan (kr : KnownRounds) : Nat :=
  u64delta kr.bitStream (getBitStreamPos kr kr.firstUnchecked)
    (getBitStreamPos kr kr.lastChecked)

/-- `Marshal` up to the JSON encoding (knownRounds.go lines 54-76): rotate
the words so that the block containing `firstUnchecked` comes first, keep
`length` words, byte-pack them, and pair with the two cursors. -/
def marshalDKR (kr : KnownRounds) : DiskKnownRounds :=
  let startPos := getBitStreamPos kr kr.firstUnchecked
  let length := marshalSpan kr
  let startBlock := (u64convertLoc kr.bitStream startPos).1
  let bitStream := (List.range length).map
    (fun i => kr.bitStream.getD ((i + startBlock) % kr.bitStream.length) 0)
  { BitStream := u64marshal bitStream
    FirstUnchecked := kr.firstUnchecked
    LastChecked := kr.lastChecked }

/-- Go's `copy(dst, src)`: overwrite the first `min` entries of `dst` with
`src`, keep the tail of `dst`. -/
def goCopy (dst src : List Nat) : List Nat :=
  if src.length ≤ dst.length then src ++ dst.drop src.length
  else src.take dst.length

/-- `Unmarshal` after the JSON parse (knownRounds.go lines 90-115): adopt
the incoming buffer when ours is empty, copy it in when it fits, error when
it does not; then install the cursors and `fuPos = FirstUnchecked mod 64`. -/
def unmarshalDKR (kr : KnownRounds) (dkr : DiskKnownRounds) : Except String KnownRounds :=
  let bitStream := u64unmarshal dkr.BitStream
  if kr.bitStream.length = 0 then
    Except.ok
      { bitStream := goCopy bitStream bitStream
        firstUnchecked := dkr.FirstUnchecked
        lastChecked := dkr.LastChecked
        fuPos := ((dkr.FirstUnchecked % 64 : Nat) : Int) }
  else if bitStream.length ≤ kr.bitStream.length then
    Except.ok
      { bitStream := goCopy (goCopy kr.bitStream bitStream) bitStream
        firstUnchecked := dkr.FirstUnchecked
        lastChecked := dkr.LastChecked
        fuPos := ((dkr.FirstUnchecked % 64 : Nat) : Int) }
  else
    Except.error "KnownRounds bitStream size is too small for passed in bit stream"

/-- The standard base64 alphabet. -/
def b64char (n : Nat) : Char :=
  "ABCDEFGHIJKLMNOPQRSTUVWXYZabcdefghijklmnopqrstuvwxyz0123456789+/".toList.getD n 'A'

/-- Standard base64 encoding with padding, as Go's
`encoding/base64.StdEncoding` used by `encoding/json` for `[]byte`
values. -/
def base64Encode : List Nat → String
  | [] => ""
  | [a] =>
      String.mk [b64char (a / 4), b64char (a % 4 * 16), '=', '=']
  | [a, b] =>
      String.mk [b64char (a / 4), b64char (a % 4 * 16 + b / 16), b64char (b % 16 * 4), '=']
  | a :: b :: c :: rest =>
      String.mk [b64char (a / 4), b64char (a % 4 * 16 + b / 16),
        b64char (b % 16 * 4 + c / 64), b64char (c % 64)] ++ base64Encode rest

/-- Go's `encoding/json` marshalling of `DiskKnownRounds`: fields in struct
order; a `[]byte` field is emitted as a base64 string; `uint64` fields as
decimal numbers. -/
def jsonMarshalDKR (dkr : DiskKnownRounds) : String :=
  "\x7b\"BitStream\":\"" ++ base64Encode dkr.BitStream ++ "\",\"FirstUnchecked\":"
    ++ Nat.repr dkr.FirstUnchecked ++ ",\"LastChecked\":" ++ Nat.repr dkr.LastChecked ++ "\x7d"

/-- `Marshal` (knownRounds.go lines 54-77), including the JSON encoding,
producing the exact byte string (as an ASCII string). -/
def Marshal (kr : KnownRounds) : String := jsonMarshalDKR (marshalDKR kr)

/-- The before-window loop of `RangeUnchecked` (knownRounds.go lines
244-257).  Each iteration invokes `roundCheck` (recorded in the ghost
trace) and consumes budget; `Sum.inl` is the early budget return with the
function result, `Sum.inr` carries `(numChecked, earliestChecked, trace)`
into the rest of the function. -/
def ruLoop1 (pred : Nat → Bool) (maxChecked : Nat) :
    Nat → Nat → Nat → Nat → List Nat → Sum (Nat × List Nat) (Nat × Nat × List Nat)
  | 0, _, numChecked, earliest, tr => Sum.inr (numChecked, earliest, tr)
  | fuel + 1, i, numChecked, earliest, tr =>
      if maxChecked ≤ numChecked then Sum.inl (min earliest i, tr)
      else ruLoop1 pred maxChecked fuel (i + 1) (numChecked + 1)
        (if !pred i && decide (i < earliest) then i else earliest) (tr ++ [i])

/-- The in-window loop of `RangeUnchecked` (knownRounds.go lines 259-280):
budget check first; an unchecked round is skipped (no `roundCheck`, no
budget) after lowering `earliestChecked`; a checked round gets `roundCheck`
invoked and consumes budget. -/
def ruLoop2 (kr : KnownRounds) (pred : Nat → Bool) (maxChecked : Nat) :
    Nat → Nat → Nat → Nat → List Nat → Sum (Nat × List Nat) (Nat × List Nat)
  | 0, _, _, earliest, tr => Sum.inr (earliest, tr)
  | fuel + 1, i, numChecked, earliest, tr =>
      if maxChecked ≤ numChecked then Sum.inl (min earliest i, tr)
      else if !Checked kr i then ruLoop2 kr pred maxChecked fuel (i + 1) numChecked (min earliest i) tr
      else ruLoop2 kr pred maxChecked fuel (i + 1) (numChecked + 1)
        (if !pred i && decide (i < earliest) then i else earliest) (tr ++ [i])

/-- `RangeUnchecked` (knownRounds.go lines 226-288), returning the round
result together with the ghost list of rounds on which `roundCheck` was
invoked, in invocation order. -/
def RangeUnchecked (kr : KnownRounds) (oldestUnknown maxChecked : Nat)
    (pred : Nat → Bool) : Nat × List Nat :=
  if kr.lastChecked < oldestUnknown then (oldestUnknown, [])
  else
    let newestRound := if kr.firstUnchecked < oldestUnknown then oldestUnknown
      else kr.firstUnchecked
    let step1 :=
      if oldestUnknown < kr.firstUnchecked then
        ruLoop1 pred maxChecked (kr.firstUnchecked - oldestUnknown) oldestUnknown 0 (U64 - 1) []
      else Sum.inr (0, U64 - 1, [])
    match step1 with
    | Sum.inl (r, tr) => (r, tr)
    | Sum.inr (numChecked, earliest, tr) =>
        if kr.firstUnchecked ≤ newestRound then
          match ruLoop2 kr pred maxChecked (kr.lastChecked + 1 - newestRound) newestRound
              numChecked earliest tr with
          | Sum.inl (r, tr') => (r, tr')
          | Sum.inr (e, tr') =>
              ((if (kr.lastChecked + 1) % U64 < e then kr.lastChecked else e) + 1, tr')
        else
          ((if (kr.lastChecked + 1) % U64 < earliest then kr.lastChecked else earliest) + 1, tr)

/-- Statement-for-statement state-passing translation of `Checked`
(knownRounds.go lines 119-129): the Go method has a pointer receiver, so
each statement is threaded through the state; no statement assigns to any
field or buffer element, which the pair result makes observable. -/
def CheckedSt (kr : KnownRounds) (rid : Nat) : Bool × KnownRounds :=
  if rid < kr.firstUnchecked then (true, kr)
  else if kr.lastChecked < rid then (false, kr)
  else (u64get kr.bitStream (getBitStreamPos kr rid), kr)

/-- `subSample` (knownRounds.go lines 340-360). -/
def subSample (kr : KnownRounds) (start end_ : Nat) : List Nat × Int :=
  let numBlocks := u64delta kr.bitStream (getBitStreamPos kr start) (getBitStreamPos kr end_)
  if kr.lastChecked < start then (List.replicate numBlocks 0, (numBlocks : Int))
  else
    let copyEnd := if kr.lastChecked < end_ then kr.lastChecked else end_
    let buff := u64copy kr.bitStream (getBitStreamPos kr start)
      (getBitStreamPos kr ((copyEnd + 1) % U64))
    (u64extend buff numBlocks, goAbs (toInt64 (sub64 end_ start)))

/-- The masked reverse loop of `RangeUncheckedMaskedRange` (knownRounds.go
line 316-320): `i` runs downwards (uint64, so it wraps past zero), the
budget counts every iteration, and the strict `Check` there can panic
(`none`). -/
def rumrLoop1 (result : List Nat) (maskFu : Nat) (pred : Nat → Bool) (maxChecked : Int) :
    Nat → Nat → Int → KnownRounds → Option (KnownRounds × Int)
  | 0, _, numChecked, kr => some (kr, numChecked)
  | fuel + 1, i, numChecked, kr =>
      if maskFu ≤ i ∧ numChecked < maxChecked then
        match (if !u64get result (toInt64 (sub64 i maskFu)) && pred i
               then Check kr i else some kr) with
        | none => none
        | some kr' =>
            rumrLoop1 result maskFu pred maxChecked fuel ((i + (U64 - 1)) % U64)
              (numChecked + 1) kr'
      else some (kr, numChecked)

/-- The sequential loop of `RangeUncheckedMaskedRange` (knownRounds.go
lines 331-335). -/
def rumrLoop2 (pred : Nat → Bool) (end_ : Nat) (maxChecked : Int) :
    Nat → Nat → Int → KnownRounds → Option KnownRounds
  | 0, _, _, kr => some kr
  | fuel + 1, i, numChecked, kr =>
      if i < end_ ∧ numChecked < maxChecked then
        match (if !Checked kr i && pred i then Check kr i else some kr) with
        | none => none
        | some kr' => rumrLoop2 pred end_ maxChecked fuel (i + 1) (numChecked + 1) kr'
      else some kr

/-- `RangeUncheckedMaskedRange` (knownRounds.go lines 298-336): the masked
phase (when the mask window is non-empty) forwards the mask, subsamples,
computes `subSample.implies(mask.bitStream)` and walks the window
backwards, then the `[start, end)` phase scans forward; `Check` inside is
the strict form, so the whole operation can panic (`none`).  Returns the
final caller state and mask state. -/
def RangeUncheckedMaskedRange (kr mask : KnownRounds) (pred : Nat → Bool)
    (start end_ : Nat) (maxChecked : Int) : Option (KnownRounds × KnownRounds) :=
  if mask.firstUnchecked ≠ mask.lastChecked then
    let mask' := Forward mask kr.firstUnchecked
    let sd := subSample kr mask'.firstUnchecked mask'.lastChecked
    let result := u64implies sd.1 mask'.bitStream
    let i0 := (mask'.firstUnchecked + (sd.2 % (U64 : Int)).toNat + (U64 - 1)) % U64
    match rumrLoop1 result mask'.firstUnchecked pred maxChecked maxChecked.toNat i0 0 kr with
    | none => none
    | some (kr1, n) =>
        let start' := if start < kr1.firstUnchecked then kr1.firstUnchecked else start
        let end' := if mask'.firstUnchecked < end_ then mask'.firstUnchecked else end_
        match rumrLoop2 pred end' maxChecked (end' - start') start' n kr1 with
        | none => none
        | some kr2 => some (kr2, mask')
  else
    let start' := if start < kr.firstUnchecked then kr.firstUnchecked else start
    let end' := if mask.firstUnchecked < end_ then mask.firstUnchecked else end_
    match rumrLoop2 pred end' maxChecked (end' - start') start' 0 kr with
    | none => none
    | some kr2 => some (kr2, mask)

/-- `RangeUncheckedMasked` (knownRounds.go lines 291-295): the full range
`[0, math.MaxUint64)`. -/
def RangeUncheckedMasked (kr mask : KnownRounds) (pred : Nat → Bool)
    (maxChecked : Int) : Option (KnownRounds × KnownRounds) :=
  RangeUncheckedMaskedRange kr mask pred 0 (U64 - 1) maxChecked

/-- Ghost observer: the number of rounds `j ∈ [a, a+n)` with
`Checked kr j`. -/
def countChecked (kr : KnownRounds) (a n : Nat) : Nat :=
  ((List.range' a n).filter (fun j => Checked kr j)).length

/-- Ghost observer: the `earliestChecked` value carried by either exit of a
scan loop. -/
def scanEarliest : Sum (Nat × List Nat) (Nat × List Nat) → Nat
  | Sum.inl (e, _) => e
  | Sum.inr (e, _) => e

/-- Ghost observer: the invocation trace carried by either exit of a scan
loop. -/
def scanTrace : Sum (Nat × List Nat) (Nat × List Nat) → List Nat
  | Sum.inl (_, tr) => tr
  | Sum.inr (_, tr) => tr

/-- The cursor invariant of the specification, section 3:
`firstUnchecked ≤ lastChecked + 1`. -/
def KnownRounds.Inv (kr : KnownRounds) : Prop := kr.firstUnchecked ≤ kr.lastChecked + 1

/-! ### Helper lemmas -/

/-- Truncated remainder is the identity below the (positive) modulus, and
for modulus zero. -/
theorem tmod_eq_self_of {a b : Int} (h0 : 0 ≤ a) (h : a < b ∨ b = 0) : Int.tmod a b = a := by
  rcases h with h | rfl
  · rw [Int.tmod_eq_emod h0 (le_trans h0 (le_of_lt h))]
    exact Int.emod_eq_of_lt h0 h
  · exact Int.tmod_zero a

/-- For a positive divisor, Go's truncated quotient is positive exactly
when the dividend is at least the divisor. -/
theorem tdiv_pos_iff_le {a L : Int} (hL : 0 < L) : 0 < Int.tdiv a L ↔ L ≤ a := by
  rcases le_or_lt 0 a with ha | ha
  · rw [Int.tdiv_eq_ediv ha hL.le]
    constructor
    · intro h
      by_contra hc
      push_neg at hc
      rw [Int.ediv_eq_zero_of_lt ha hc] at h
      exact lt_irrefl 0 h
    · intro h
      have h1 : (1 : Int) ≤ a / L := by
        rw [Int.le_ediv_iff_mul_le hL]
        simpa using h
      omega
  · have hn : Int.tdiv a L ≤ 0 := by
      have h2 := Int.tdiv_nonneg (by omega : (0:Int) ≤ -a) hL.le
      rw [Int.neg_tdiv] at h2
      omega
    constructor
    · intro h; omega
    · intro h; omega

/-- Go uint64 subtraction computes the plain difference when it does not
underflow. -/
theorem sub64_of_le {a b : Nat} (hba : b ≤ a) (ha : a < U64) : sub64 a b = a - b := by
  unfold sub64 U64 at *
  omega

/-- Go uint64 subtraction underflows to `a + 2^64 - b` when `a < b`. -/
theorem sub64_of_lt {a b : Nat} (hab : a < b) (hb : b < U64) : sub64 a b = a + U64 - b := by
  unfold sub64 U64 at *
  omega

/-- `wrap64` is the identity on the int64 range. -/
theorem wrap64_eq_self {x : Int} (h0 : -(2 ^ 63) ≤ x) (h1 : x < 2 ^ 63) : wrap64 x = x := by
  unfold wrap64 U64
  omega

/-- `toInt64` of a small value is that value. -/
theorem toInt64_of_lt {u : Nat} (h : u < 2 ^ 63) : toInt64 u = (u : Nat) := by
  unfold toInt64 U64 at *
  rw [if_pos (by omega), Nat.mod_eq_of_lt (by omega)]

/-- `toInt64` of a large uint64 value is the negative reinterpretation. -/
theorem toInt64_of_ge {u : Nat} (h1 : 2 ^ 63 ≤ u) (h2 : u < U64) : toInt64 u = (u : Int) - (U64 : Nat) := by
  unfold toInt64 U64 at *
  rw [if_neg (by omega), Nat.mod_eq_of_lt (by omega)]

/-! ### C1 -/

/-- C1: at the state pinned by the test suite
(`bitStream = [0, 2^64-1, 0, 2^64-1, 0]`, `firstUnchecked = 75`,
`lastChecked = 150`, `fuPos = 75`), `Marshal` emits the `BitStream` field
as the base64 string of the big-endian packed span (because
`DiskKnownRounds.BitStream` is a Go `[]byte`, which `encoding/json` encodes
in base64), not the JSON array of 64-bit integers that the claim (and
`TestKnownRounds_Marshal`) pin. -/
theorem C1_marshal_emits_base64 :
    Marshal ⟨[0, U64 - 1, 0, U64 - 1, 0], 75, 150, 75⟩ =
      "\x7b\"BitStream\":\"//////////8AAAAAAAAAAA==\",\"FirstUnchecked\":75,\"LastChecked\":150\x7d"
    ∧ Marshal ⟨[0, U64 - 1, 0, U64 - 1, 0], 75, 150, 75⟩ ≠
      "\x7b\"BitStream\":[18446744073709551615,0],\"FirstUnchecked\":75,\"LastChecked\":150\x7d" := by
  decide

/-! ### C5 -/

/-- C5 counterexample: `NewKnownRound(5)` allocates `(5+63)/64 = 1` word,
so `Len()` is `64`, not the `320` the claim states. -/
theorem C5_counterexample : (NewKnownRound 5).Len ≠ 320 := by decide

/-- C5 (amended): `NewKnownRound(5)` produces capacity `Len() = 64` (one
64-bit word), both cursors `0`, `fuPos = 0` and an all-zero buffer; in
general the constructor allocates `⌈capacityRounds/64⌉ = (capacityRounds+63)/64`
words. -/
theorem C5_new_known_round :
    (NewKnownRound 5).Len = 64 ∧ (NewKnownRound 5).bitStream = [0]
    ∧ (NewKnownRound 5).firstUnchecked = 0 ∧ (NewKnownRound 5).lastChecked = 0
    ∧ (NewKnownRound 5).fuPos = 0
    ∧ ∀ roundCapacity : Nat,
        (NewKnownRound roundCapacity).bitStream.length = (roundCapacity + 63) / 64 := by
  refine ⟨by decide, by decide, rfl, rfl, rfl, fun roundCapacity => ?_⟩
  simp [NewKnownRound]

/-! ### C10 -/

/-- C10: `Checked` is observationally pure: the state-passing translation
returns the state unchanged, its boolean agrees with the pure `Checked`,
and a second call on the returned state yields the same boolean. -/
theorem C10_checked_pure (kr : KnownRounds) (rid : Nat) :
    (CheckedSt kr rid).2 = kr ∧ (CheckedSt kr rid).1 = Checked kr rid
    ∧ (CheckedSt (CheckedSt kr rid).2 rid).1 = (CheckedSt kr rid).1 := by
  have h2 : (CheckedSt kr rid).2 = kr := by
    unfold CheckedSt
    split
    · rfl
    · split <;> rfl
  refine ⟨h2, ?_, by rw [h2]⟩
  unfold CheckedSt Checked
  split
  · rfl
  · split <;> rfl

/-! ### C3 -/

/-- C3 counterexample: on a fresh `NewKnownRound(5)` (capacity
`C = Len() = 64`), `Check(64)` is at true distance exactly `C` from
`lastChecked = 0`, which the claim says must not panic, yet the guard
`abs(int(lastChecked-rid))/C > 0` trips and `Check` fails fatally. -/
theorem C3_counterexample :
    Check (NewKnownRound 5) 64 = none
    ∧ (((NewKnownRound 5).lastChecked : Int) - 64).natAbs ≤ (NewKnownRound 5).Len := by
  decide

/-- C3 (amended): for a non-empty buffer, the strict `Check(rid)` fails
fatally if and only if the capacity `C = Len()` is at most
`abs(int64(lastChecked - rid))` (the absolute value, with Go overflow, of
the wrap-around signed distance) — i.e. at distance exactly `C` it already
panics; whenever it does not panic it behaves as the shared `check`
body. -/
theorem C3_panic_iff (kr : KnownRounds) (rid : Nat) (h : 0 < kr.bitStream.length) :
    (Check kr rid = none ↔ ((kr.Len : Nat) : Int) ≤ goAbs (toInt64 (sub64 kr.lastChecked rid)))
    ∧ ∀ s, Check kr rid = some s → s = check kr rid := by
  have hL : (0 : Int) < ((kr.Len : Nat) : Int) := by
    unfold KnownRounds.Len
    omega
  have key : checkPanics kr rid = true ↔
      ((kr.Len : Nat) : Int) ≤ goAbs (toInt64 (sub64 kr.lastChecked rid)) := by
    unfold checkPanics
    rw [decide_eq_true_eq, tdiv_pos_iff_le hL]
  constructor
  · rw [← key]
    unfold Check
    split
    · simp_all
    · simp_all
  · intro s hs
    unfold Check at hs
    split at hs
    · exact absurd hs (by simp)
    · exact (Option.some_inj.mp hs).symm

/-! ### C9 -/

/-- C9 counterexample: with `lastChecked = 2^63` and `rid = 0` the distance
is at least `C = 64`, yet `int64(lastChecked - rid)` is the minimal int64,
Go's `abs` overflows back to a negative value, the guard does NOT trip, and
`ForceCheck` leaves the state completely unchanged — contradicting the
claim that any such stale `ForceCheck` advances the window. -/
theorem C9_counterexample :
    ForceCheck ⟨[0], 2 ^ 63, 2 ^ 63, 0⟩ 0 = ⟨[0], 2 ^ 63, 2 ^ 63, 0⟩
    ∧ (⟨[0], 2 ^ 63, 2 ^ 63, 0⟩ : KnownRounds).Len
        ≤ (⟨[0], 2 ^ 63, 2 ^ 63, 0⟩ : KnownRounds).lastChecked - 0 := by
  decide

/-- C9 (amended): when `rid < C = Len()`, `lastChecked ≥ rid + C`, the wrap
distance `lastChecked - rid` is not exactly `2^63` (where Go's `abs`
overflows and the guard is skipped) and `lastChecked < 2^64 - C + rid` (so
the underflowed `Forward` argument exceeds `lastChecked`), the guard trips,
`rid - C` underflows to `2^64 - C + rid`, and `ForceCheck` resets
`firstUnchecked = lastChecked = 2^64 - C + rid` with `fuPos` its low six
bits and the buffer untouched; every round below that near-maximal id is
then implicitly checked. -/
theorem C9_forcecheck_underflow (kr : KnownRounds) (rid : Nat)
    (h1 : rid < kr.Len) (h2 : rid + kr.Len ≤ kr.lastChecked) (h3 : kr.lastChecked < U64)
    (h4 : kr.lastChecked - rid ≠ 2 ^ 63) (h5 : kr.lastChecked < U64 - kr.Len + rid) :
    ForceCheck kr rid =
      { kr with
        firstUnchecked := U64 - kr.Len + rid
        lastChecked := U64 - kr.Len + rid
        fuPos := (((U64 - kr.Len + rid) % 64 : Nat) : Int) }
    ∧ ∀ r, r < U64 - kr.Len + rid → Checked (ForceCheck kr rid) r = true := by
  have hW : 0 < kr.bitStream.length := by
    unfold KnownRounds.Len at h1; omega
  have hL : (0 : Int) < ((kr.Len : Nat) : Int) := by unfold KnownRounds.Len; omega
  have hLen64 : 64 ≤ kr.Len := by unfold KnownRounds.Len at *; omega
  have hLenU : kr.Len < U64 := by omega
  have hd : sub64 kr.lastChecked rid = kr.lastChecked - rid :=
    sub64_of_le (by omega) h3
  have guard : checkPanics kr rid = true := by
    unfold checkPanics
    rw [decide_eq_true_eq, tdiv_pos_iff_le hL, hd]
    rcases lt_or_le (kr.lastChecked - rid) (2 ^ 63) with hlt | hge
    · rw [toInt64_of_lt hlt]
      unfold goAbs
      rw [if_neg (by omega)]
      omega
    · have hgt : 2 ^ 63 < kr.lastChecked - rid := by omega
      rw [toInt64_of_ge (by omega) (by omega)]
      unfold goAbs
      rw [if_pos (by unfold U64 at *; omega)]
      rw [wrap64_eq_self (by unfold U64 at *; omega) (by unfold U64 at *; omega)]
      unfold U64 at *
      omega
  have harg : sub64 rid kr.Len = U64 - kr.Len + rid := by
    rw [sub64_of_lt h1 hLenU]
    omega
  have hfwd : Forward kr (sub64 rid kr.Len) =
      { kr with
        firstUnchecked := U64 - kr.Len + rid
        lastChecked := U64 - kr.Len + rid
        fuPos := (((U64 - kr.Len + rid) % 64 : Nat) : Int) } := by
    rw [harg]
    unfold Forward
    rw [if_pos (by omega)]
  have hres : ForceCheck kr rid =
      { kr with
        firstUnchecked := U64 - kr.Len + rid
        lastChecked := U64 - kr.Len + rid
        fuPos := (((U64 - kr.Len + rid) % 64 : Nat) : Int) } := by
    unfold ForceCheck
    rw [if_pos guard, hfwd]
    unfold check
    rw [if_pos (by simp only []; omega)]
  refine ⟨hres, fun r hr => ?_⟩
  rw [hres]
  unfold Checked
  rw [if_pos (by simp only []; omega)]

/-! ### Support lemmas for Check idempotence (C7) -/

theorem migrateLoop_ge (kr : KnownRounds) : ∀ (fuel r : Nat), r ≤ migrateLoop kr fuel r
  | 0, r => le_refl r
  | fuel + 1, r => by
      unfold migrateLoop
      split
      · exact le_trans (Nat.le_succ r) (migrateLoop_ge kr fuel (r + 1))
      · exact le_refl r

theorem migrateLoop_le (kr : KnownRounds) : ∀ (fuel r : Nat), r ≤ kr.lastChecked →
    migrateLoop kr fuel r ≤ kr.lastChecked
  | 0, _, h => h
  | fuel + 1, r, h => by
      unfold migrateLoop
      split
      · rename_i hcond
        rw [Bool.and_eq_true] at hcond
        exact migrateLoop_le kr fuel (r + 1) (of_decide_eq_true hcond.2)
      · exact h

theorem migrateFU_fu_ge (kr : KnownRounds) (rid : Nat) :
    rid ≤ (migrateFirstUnchecked kr rid).firstUnchecked :=
  migrateLoop_ge kr _ rid

theorem length_u64set (b : List Nat) (p : Int) : (u64set b p).length = b.length := by
  unfold u64set
  exact List.length_set ..

theorem length_u64clear (b : List Nat) (p : Int) : (u64clear b p).length = b.length := by
  unfold u64clear
  exact List.length_set ..

theorem length_foldl_clear (l : List Nat) (start : Int) : ∀ b : List Nat,
    (l.foldl (fun b k => u64clear b (start + Int.ofNat k)) b).length = b.length := by
  induction l with
  | nil => intro b; rfl
  | cons k ks ih =>
      intro b
      simp only [List.foldl_cons]
      rw [ih, length_u64clear]

theorem length_u64clearRange (b : List Nat) (s e : Int) :
    (u64clearRange b s e).length = b.length := by
  unfold u64clearRange
  exact length_foldl_clear _ s b

theorem getBitStreamPos_congr {kr kr' : KnownRounds} (r : Nat)
    (hfu : kr'.firstUnchecked = kr.firstUnchecked) (hfp : kr'.fuPos = kr.fuPos)
    (hlen : kr'.bitStream.length = kr.bitStream.length) :
    getBitStreamPos kr' r = getBitStreamPos kr r := by
  unfold getBitStreamPos KnownRounds.Len
  rw [hfu, hfp, hlen]

theorem u64set_idem (b : List Nat) (p : Int) : u64set (u64set b p) p = u64set b p := by
  unfold u64set
  simp only [List.length_set]
  set i := (p % ((64 * b.length : Nat) : Int)).toNat / 64 with hi
  rw [List.set_set]
  by_cases hlt : i < b.length
  · have hg : (b.set i (setBitN (b.getD i 0) (63 - (p % ((64 * b.length : Nat) : Int)).toNat % 64))).getD i 0
        = setBitN (b.getD i 0) (63 - (p % ((64 * b.length : Nat) : Int)).toNat % 64) := by
      simp [List.getD_eq_getElem?_getD, List.getElem?_set_self, hlt]
    rw [hg]
    unfold setBitN
    rw [Nat.or_assoc, Nat.or_self]
  · push_neg at hlt
    rw [List.set_eq_of_length_le hlt]
    rw [List.set_eq_of_length_le hlt]

/-- Structure eta for `KnownRounds`. -/
theorem KnownRounds.eta (S : KnownRounds) :
    ({ bitStream := S.bitStream, firstUnchecked := S.firstUnchecked,
       lastChecked := S.lastChecked, fuPos := S.fuPos } : KnownRounds) = S := rfl

/-- The shared `check` body is the identity on a state whose round bit is
already set, whose window already covers the round, and on which neither
the migrate trigger nor the lap correction fires. -/
theorem check_noop (S : KnownRounds) (rid : Nat)
    (h1 : ¬ rid < S.firstUnchecked)
    (h2 : ¬ S.lastChecked < rid)
    (h3 : u64set S.bitStream (getBitStreamPos S rid) = S.bitStream)
    (h4 : ¬ getBitStreamPos S S.firstUnchecked = getBitStreamPos S rid)
    (h5 : ¬ (S.firstUnchecked < rid ∧ S.Len ≤ sub64 rid S.firstUnchecked)) :
    check S rid = S := by
  unfold check
  rw [if_neg h1]
  simp only [KnownRounds.eta, if_neg h2, if_neg h4, if_neg h5, h3]

/-! ### C7 -/

set_option maxRecDepth 16000 in
/-- C7 counterexample: from the reachable state `Check 63` of
`NewKnownRound(1)`, a single further `Check(65)` (no fatal failure) yields
`firstUnchecked = lastChecked = 65`, and a second `Check(65)` moves both
cursors on to `66` — `Check` is not idempotent when the first call leaves
`firstUnchecked` pinned at the checked round. -/
theorem C7_counterexample :
    Check (NewKnownRound 1) 63 = some ⟨[1], 0, 63, 0⟩
    ∧ Check ⟨[1], 0, 63, 0⟩ 65 = some ⟨[4611686018427387905], 65, 65, 1⟩
    ∧ Check ⟨[4611686018427387905], 65, 65, 1⟩ 65 = some ⟨[4611686018427387905], 66, 66, 2⟩
    ∧ (⟨[4611686018427387905], 65, 65, 1⟩ : KnownRounds)
        ≠ ⟨[4611686018427387905], 66, 66, 2⟩ := by
  decide

/-- C7 (amended): the shared `check` body (hence `Check` where it does not
fail fatally) is idempotent whenever the first call does not leave
`firstUnchecked = rid`; the sole exception — first call ending with
`firstUnchecked = lastChecked = rid`, as happens when `rid` laps the buffer
— advances both cursors to `rid + 1` on the second call. -/
theorem C7_check_idempotent_unless_pinned (kr : KnownRounds) (rid : Nat) (hr : rid < U64) (hLen : kr.Len < U64)
    (hne : (check kr rid).firstUnchecked ≠ rid) :
    check (check kr rid) rid = check kr rid := by
  by_cases h0 : rid < kr.firstUnchecked
  · have hid : check kr rid = kr := by unfold check; rw [if_pos h0]
    rw [hid]
    exact hid
  · rcases Nat.lt_or_ge rid (check kr rid).firstUnchecked with hgt | hge
    · set R := check kr rid with hR
      unfold check
      rw [if_pos hgt]
    · have hlt : (check kr rid).firstUnchecked < rid := Nat.lt_of_le_of_ne hge hne
      set R := check kr rid with hR
      clear_value R
      rw [check] at hR
      rw [if_neg h0] at hR
      simp only [KnownRounds.eta] at hR
      set pos := getBitStreamPos kr rid with hpos
      set b1 := u64set kr.bitStream pos with hb1
      set kr1 : KnownRounds := { kr with bitStream := b1 } with hkr1
      set q := getBitStreamPos kr1 ((kr.lastChecked + 1) % U64) with hq
      set b2 := u64clearRange b1 q pos with hb2
      set kr2 : KnownRounds :=
        if kr.lastChecked < rid then ({ kr with bitStream := b2, lastChecked := rid } : KnownRounds)
        else kr1 with hkr2
      set fp := getBitStreamPos kr2 ((rid + 1) % U64) with hfp
      set krS : KnownRounds :=
        { bitStream := u64clear kr2.bitStream fp
          firstUnchecked := (rid + 1) % U64
          lastChecked := (rid + 1) % U64
          fuPos := fp } with hkrS
      set kr3 : KnownRounds :=
        if getBitStreamPos kr2 kr2.firstUnchecked = pos then
          if getBitStreamPos kr2 kr2.lastChecked = pos then krS
          else migrateFirstUnchecked kr2 rid
        else kr2 with hkr3
      set nf := sub64 ((rid + 1) % U64) kr3.Len with hnf
      set kr3' : KnownRounds := { kr3 with fuPos := getBitStreamPos kr3 nf, firstUnchecked := nf }
        with hkr3'
      set kr4 : KnownRounds :=
        if kr3.firstUnchecked < rid ∧ kr3.Len ≤ sub64 rid kr3.firstUnchecked then
          migrateFirstUnchecked kr3' rid
        else kr3 with hkr4
      have hlen1 : b1.length = kr.bitStream.length := by
        rw [hb1, length_u64set]
      have hlen2 : kr2.bitStream.length = kr.bitStream.length := by
        rw [hkr2]
        split
        · show b2.length = kr.bitStream.length
          rw [hb2, length_u64clearRange, hlen1]
        · exact hlen1
      have hfu2 : kr2.firstUnchecked = kr.firstUnchecked := by
        rw [hkr2]; split <;> rfl
      have hfp2 : kr2.fuPos = kr.fuPos := by
        rw [hkr2]; split <;> rfl
      have hlc2 : ¬ kr2.lastChecked < rid := by
        rw [hkr2]; split
        · exact Nat.lt_irrefl rid
        · rename_i h
          exact h
      by_cases c5 : kr3.firstUnchecked < rid ∧ kr3.Len ≤ sub64 rid kr3.firstUnchecked
      · exfalso
        rw [if_pos c5] at hkr4
        have h1 : rid ≤ kr4.firstUnchecked := hkr4 ▸ migrateFU_fu_ge kr3' rid
        have h2 : R.firstUnchecked = kr4.firstUnchecked := by rw [hR]
        omega
      · rw [if_neg c5] at hkr4
        by_cases c3a : getBitStreamPos kr2 kr2.firstUnchecked = pos
        · exfalso
          by_cases c3b : getBitStreamPos kr2 kr2.lastChecked = pos
          · rw [if_pos c3a, if_pos c3b] at hkr3
            have hfu : R.firstUnchecked = (rid + 1) % U64 := by rw [hR, hkr4, hkr3, hkrS]
            rw [hfu] at hlt
            have hrid : rid = U64 - 1 := by
              rcases Nat.lt_or_ge (rid + 1) U64 with h | h
              · rw [Nat.mod_eq_of_lt h] at hlt; omega
              · omega
            have hmod : (rid + 1) % U64 = 0 := by
              rw [hrid]
              have : U64 - 1 + 1 = U64 := by unfold U64; omega
              rw [this, Nat.mod_self]
            apply c5
            constructor
            · rw [hkr3, hkrS]
              exact hlt
            · have hfu3 : kr3.firstUnchecked = 0 := by rw [hkr3, hkrS]; exact hmod
              have hlen3 : kr3.Len = kr.Len := by
                rw [hkr3]
                show krS.Len = kr.Len
                unfold KnownRounds.Len
                rw [hkrS]
                show (u64clear kr2.bitStream fp).length * 64 = _
                rw [length_u64clear, hlen2]
              rw [hfu3, hlen3, sub64_of_le (Nat.zero_le rid) hr]
              omega
          · rw [if_pos c3a, if_neg c3b] at hkr3
            have h1 : rid ≤ kr3.firstUnchecked := hkr3 ▸ migrateFU_fu_ge kr2 rid
            have h2 : R.firstUnchecked = kr3.firstUnchecked := by rw [hR, hkr4]
            omega
        · rw [if_neg c3a] at hkr3
          -- survivor: R = { kr2 with bitStream := u64set kr2.bitStream pos }
          have hRfu : R.firstUnchecked = kr.firstUnchecked := by
            rw [hR, hkr4, hkr3]
            exact hfu2
          have hRfp : R.fuPos = kr.fuPos := by
            rw [hR, hkr4, hkr3]
            exact hfp2
          have hRb : R.bitStream = u64set kr2.bitStream pos := by
            rw [hR, hkr4, hkr3]
          have hRlen : R.bitStream.length = kr.bitStream.length := by
            rw [hRb, length_u64set, hlen2]
          have eR : ∀ x, getBitStreamPos R x = getBitStreamPos kr x := fun x =>
            getBitStreamPos_congr x hRfu hRfp hRlen
          have e2 : ∀ x, getBitStreamPos kr2 x = getBitStreamPos kr x := fun x =>
            getBitStreamPos_congr x hfu2 hfp2 hlen2
          apply check_noop R rid
          · rw [hRfu]
            exact h0
          · rw [hR, hkr4, hkr3]
            exact hlc2
          · rw [eR rid, ← hpos, hRb]
            exact u64set_idem kr2.bitStream pos
          · rw [eR, eR rid, ← hpos, hRfu]
            rw [e2, hfu2] at c3a
            exact c3a
          · intro hcon
            apply c5
            rw [hkr3]
            have hL : R.Len = kr2.Len := by
              unfold KnownRounds.Len
              rw [hRb, length_u64set]
            constructor
            · rw [hfu2, ← hRfu]
              exact hcon.1
            · rw [← hL, hfu2, ← hRfu]
              exact hcon.2

/-- Witness for the C7 theorem at `NewKnownRound(1)`, round 0. -/
theorem C7_check_idempotent_unless_pinned_witness :
    (check (NewKnownRound 1) 0).firstUnchecked ≠ 0
    ∧ check (check (NewKnownRound 1) 0) 0 = check (NewKnownRound 1) 0 :=
  ⟨by decide, C7_check_idempotent_unless_pinned (NewKnownRound 1) 0 (by decide) (by decide)
    (by decide)⟩

/-- Witness for the C3 theorem: a fresh `NewKnownRound(5)` and round 100
(wrap distance 100 ≥ C = 64), where the equivalence yields the panic. -/
theorem C3_panic_iff_witness :
    0 < (NewKnownRound 5).bitStream.length ∧ Check (NewKnownRound 5) 100 = none :=
  ⟨by decide, (C3_panic_iff (NewKnownRound 5) 100 (by decide)).1.mpr (by decide)⟩

/-- Witness for the C9 theorem: one word of capacity, `lastChecked = 100`,
`ForceCheck(0)` slides the window to `2^64 - 64`. -/
theorem C9_forcecheck_underflow_witness :
    (0 : Nat) < (⟨[0], 40, 100, 0⟩ : KnownRounds).Len
    ∧ ForceCheck ⟨[0], 40, 100, 0⟩ 0 =
        ⟨[0], 18446744073709551552, 18446744073709551552, 0⟩ :=
  ⟨by decide, by
    have h := (C9_forcecheck_underflow ⟨[0], 40, 100, 0⟩ 0 (by decide) (by decide) (by decide)
      (by decide) (by decide)).1
    exact h.trans (by decide)⟩

/-! ### Support lemmas for Forward (C8) -/

theorem neg_tmod (a b : Int) : Int.tmod (-a) b = -(Int.tmod a b) := by
  rw [Int.tmod_def, Int.tmod_def, Int.neg_tdiv]
  ring

theorem tmod_range (a : Int) {C : Int} (hC : 0 < C) :
    -C < Int.tmod a C ∧ Int.tmod a C < C := by
  rcases le_or_lt 0 a with ha | ha
  · rw [Int.tmod_eq_emod ha hC.le]
    have h1 := Int.emod_nonneg a (by omega : C ≠ 0)
    have h2 := Int.emod_lt_of_pos a hC
    omega
  · have hneg : Int.tmod a C = -(Int.tmod (-a) C) := by rw [← neg_tmod, neg_neg]
    rw [hneg, Int.tmod_eq_emod (by omega : (0:Int) ≤ -a) hC.le]
    have h1 := Int.emod_nonneg (-a) (by omega : C ≠ 0)
    have h2 := Int.emod_lt_of_pos (-a) hC
    omega

theorem tmod_tmod (a : Int) {C : Int} (hC : 0 ≤ C) :
    Int.tmod (Int.tmod a C) C = Int.tmod a C := by
  rcases hC.eq_or_lt with rfl | h
  · rw [Int.tmod_zero, Int.tmod_zero]
  · obtain ⟨h1, h2⟩ := tmod_range a h
    rcases le_or_lt 0 (Int.tmod a C) with hx | hx
    · exact tmod_eq_self_of hx (Or.inl h2)
    · have hstep : Int.tmod (-(Int.tmod a C)) C = -(Int.tmod a C) :=
        tmod_eq_self_of (by omega) (Or.inl (by omega))
      rw [← neg_neg (Int.tmod a C), neg_tmod, hstep, neg_neg]

theorem tmod_emod (a C : Int) : (Int.tmod a C) % C = a % C := by
  rw [Int.tmod_def, Int.sub_emod, Int.mul_emod_right, sub_zero,
    Int.emod_emod_of_dvd _ dvd_rfl]

theorem emod_add_tmod (x y C : Int) : (Int.tmod x C + y) % C = (x + y) % C := by
  conv_rhs => rw [Int.add_emod]
  rw [Int.add_emod (Int.tmod x C) y, tmod_emod]

theorem u64get_congr {b : List Nat} {x y : Int}
    (h : x % ((64 * b.length : Nat) : Int) = y % ((64 * b.length : Nat) : Int)) :
    u64get b x = u64get b y := by
  unfold u64get
  rw [h]

theorem sub64_self (a : Nat) : sub64 a a = 0 := by
  unfold sub64 U64
  omega

theorem toInt64_zero : toInt64 0 = 0 := by
  unfold toInt64 U64
  norm_num

theorem migrateLoop_congr (kr kr' : KnownRounds) (lo : Nat)
    (hlc : kr'.lastChecked = kr.lastChecked) (hb : kr'.bitStream = kr.bitStream)
    (hget : ∀ r, lo ≤ r → r < kr.lastChecked →
      u64get kr.bitStream (getBitStreamPos kr' r) = u64get kr.bitStream (getBitStreamPos kr r)) :
    ∀ fuel r, lo ≤ r → migrateLoop kr' fuel r = migrateLoop kr fuel r
  | 0, _, _ => rfl
  | fuel + 1, r, hr => by
      unfold migrateLoop
      rw [hb, hlc]
      by_cases hlt : r < kr.lastChecked
      · rw [hget r hr hlt]
        split
        · exact migrateLoop_congr kr kr' lo hlc hb hget fuel (r + 1) (by omega)
        · rfl
      · have hd : decide (r < kr.lastChecked) = false := by simp [hlt]
        rw [hd]
        simp only [Bool.and_false]
        rfl

theorem forward_self_noop (k : KnownRounds) (rid : Nat) (hfu : k.firstUnchecked = rid)
    (hlc : ¬ k.lastChecked < rid)
    (hfp : Int.tmod k.fuPos ((k.Len : Nat) : Int) = k.fuPos)
    (hstop : migrateLoop k (k.lastChecked - rid) rid = rid) :
    Forward k rid = k := by
  unfold Forward
  rw [if_neg hlc, if_pos (le_of_eq hfu)]
  unfold migrateFirstUnchecked
  simp only [hstop]
  have hpos : getBitStreamPos k rid = k.fuPos := by
    unfold getBitStreamPos
    rw [hfu]
    simp only [Nat.lt_irrefl, if_false, sub64_self, toInt64_zero, add_zero]
    exact hfp
  rw [hpos, ← hfu]

/-! ### C8 -/

/-- C8: `Forward` is idempotent — `Forward(rid); Forward(rid)` leaves
exactly the state of a single `Forward(rid)` — and, on states satisfying
the data-model bounds of the specification (uint64 cursors, window below
2^63, `firstUnchecked ≤ lastChecked + 1`), it never decreases
`firstUnchecked`. -/
theorem C8_forward_idempotent_monotone (kr : KnownRounds) (rid : Nat)
    (hr : rid < U64) (hlcU : kr.lastChecked < U64)
    (hwin : kr.lastChecked - kr.firstUnchecked < 2 ^ 63) (hInv : kr.Inv) :
    Forward (Forward kr rid) rid = Forward kr rid
    ∧ kr.firstUnchecked ≤ (Forward kr rid).firstUnchecked := by
  unfold KnownRounds.Inv at hInv
  by_cases h1 : kr.lastChecked < rid
  · have hF : Forward kr rid =
        { kr with
          firstUnchecked := rid
          lastChecked := rid
          fuPos := ((rid % 64 : Nat) : Int) } := by
      unfold Forward
      rw [if_pos h1]
    refine ⟨?_, by rw [hF]; show kr.firstUnchecked ≤ rid; omega⟩
    rw [hF]
    apply forward_self_noop
    · rfl
    · exact Nat.lt_irrefl rid
    · show Int.tmod ((rid % 64 : Nat) : Int) ((kr.Len : Nat) : Int) = ((rid % 64 : Nat) : Int)
      rcases Nat.eq_zero_or_pos kr.bitStream.length with hz | hpos
      · apply tmod_eq_self_of (by positivity) (Or.inr ?_)
        unfold KnownRounds.Len
        rw [hz]
        norm_num
      · apply tmod_eq_self_of (by positivity) (Or.inl ?_)
        unfold KnownRounds.Len
        have h64 : rid % 64 < 64 := Nat.mod_lt rid (by norm_num)
        have : 64 ≤ kr.bitStream.length * 64 := by omega
        exact_mod_cast lt_of_lt_of_le h64 this
    · show migrateLoop _ (rid - rid) rid = rid
      rw [Nat.sub_self]
      rfl
  · by_cases h2 : kr.firstUnchecked ≤ rid
    · have hF : Forward kr rid = migrateFirstUnchecked kr rid := by
        unfold Forward
        rw [if_neg h1, if_pos h2]
      have hfuF : (Forward kr rid).firstUnchecked
          = migrateLoop kr (kr.lastChecked - rid) rid := by
        rw [hF]
        rfl
      have hge : rid ≤ migrateLoop kr (kr.lastChecked - rid) rid := migrateLoop_ge kr _ rid
      refine ⟨?_, by rw [hfuF]; omega⟩
      have hk'lc : (Forward kr rid).lastChecked = kr.lastChecked := by rw [hF]; rfl
      have hk'b : (Forward kr rid).bitStream = kr.bitStream := by rw [hF]; rfl
      have hk'fp : (Forward kr rid).fuPos
          = getBitStreamPos kr (migrateLoop kr (kr.lastChecked - rid) rid) := by rw [hF]; rfl
      rcases Nat.lt_or_ge rid (migrateLoop kr (kr.lastChecked - rid) rid) with hlt | hle
      · -- firstUnchecked moved strictly past rid: second call is the final no-op branch
        rw [hF]
        conv_lhs => unfold Forward
        rw [if_neg (show ¬ (migrateFirstUnchecked kr rid).lastChecked < rid from h1),
          if_neg (show ¬ (migrateFirstUnchecked kr rid).firstUnchecked ≤ rid from by
            show ¬ migrateLoop kr (kr.lastChecked - rid) rid ≤ rid
            omega)]
      · have heq : migrateLoop kr (kr.lastChecked - rid) rid = rid := by omega
        have hC : (0 : Int) ≤ ((kr.Len : Nat) : Int) := by positivity
        -- the bit reads of the second walk agree with the first
        have hget : ∀ r, rid ≤ r → r < kr.lastChecked →
            u64get kr.bitStream (getBitStreamPos (Forward kr rid) r)
              = u64get kr.bitStream (getBitStreamPos kr r) := by
          intro r hrr hrlc
          apply u64get_congr
          have hCeq : ((64 * kr.bitStream.length : Nat) : Int) = ((kr.Len : Nat) : Int) := by
            unfold KnownRounds.Len
            push_cast
            ring
          rw [hCeq]
          have hrU : r < U64 := by omega
          have hdelta1 : getBitStreamPos (Forward kr rid) r
              = Int.tmod ((Forward kr rid).fuPos + ((r - rid : Nat) : Int))
                  (((Forward kr rid).Len : Nat) : Int) := by
            unfold getBitStreamPos
            rw [if_neg (by rw [hfuF, heq]; omega)]
            rw [hfuF, heq, sub64_of_le hrr hrU, toInt64_of_lt (by omega)]
          have hLen' : (Forward kr rid).Len = kr.Len := by
            unfold KnownRounds.Len
            rw [hk'b]
          have hdelta2 : getBitStreamPos kr r
              = Int.tmod (kr.fuPos + ((r - kr.firstUnchecked : Nat) : Int))
                  ((kr.Len : Nat) : Int) := by
            unfold getBitStreamPos
            rw [if_neg (by omega)]
            rw [sub64_of_le (by omega) hrU, toInt64_of_lt (by omega)]
          have hdelta3 : getBitStreamPos kr rid
              = Int.tmod (kr.fuPos + ((rid - kr.firstUnchecked : Nat) : Int))
                  ((kr.Len : Nat) : Int) := by
            unfold getBitStreamPos
            rw [if_neg (by omega)]
            rw [sub64_of_le h2 hr, toInt64_of_lt (by omega)]
          rw [hdelta1, hdelta2, hLen', hk'fp, heq, hdelta3]
          rw [tmod_emod, tmod_emod]
          rw [show (Int.tmod (kr.fuPos + ((rid - kr.firstUnchecked : Nat) : Int))
                ((kr.Len : Nat) : Int) + ((r - rid : Nat) : Int))
              % ((kr.Len : Nat) : Int)
              = ((kr.fuPos + ((rid - kr.firstUnchecked : Nat) : Int)) + ((r - rid : Nat) : Int))
              % ((kr.Len : Nat) : Int) from emod_add_tmod _ _ _]
          congr 1
          have c1 : ((r - rid : Nat) : Int) = (r : Int) - (rid : Int) := by
            exact_mod_cast Int.ofNat_sub hrr
          have c2 : ((rid - kr.firstUnchecked : Nat) : Int)
              = (rid : Int) - (kr.firstUnchecked : Int) := by
            exact_mod_cast Int.ofNat_sub h2
          have c3 : ((r - kr.firstUnchecked : Nat) : Int)
              = (r : Int) - (kr.firstUnchecked : Int) := by
            exact_mod_cast Int.ofNat_sub (by omega : kr.firstUnchecked ≤ r)
          rw [c1, c2, c3]
          ring
        apply forward_self_noop
        · rw [hfuF]
          exact heq
        · rw [hk'lc]
          exact h1
        · rw [hk'fp, heq]
          have hLen' : ((Forward kr rid).Len : Int) = ((kr.Len : Nat) : Int) := by
            unfold KnownRounds.Len
            rw [hk'b]
          rw [hLen']
          unfold getBitStreamPos
          exact tmod_tmod _ hC
        · rw [hk'lc]
          rw [migrateLoop_congr kr (Forward kr rid) rid hk'lc hk'b hget
            (kr.lastChecked - rid) rid (le_refl rid)]
          exact heq
    · have hF : Forward kr rid = kr := by
        unfold Forward
        rw [if_neg h1, if_neg h2]
      rw [hF]
      exact ⟨hF, le_refl _⟩

/-- Witness for the C8 theorem at a one-word state with window `[0, 10]`,
round 5. -/
theorem C8_forward_idempotent_monotone_witness :
    (⟨[0], 0, 10, 0⟩ : KnownRounds).Inv
    ∧ (Forward (Forward ⟨[0], 0, 10, 0⟩ 5) 5 = Forward ⟨[0], 0, 10, 0⟩ 5
       ∧ (⟨[0], 0, 10, 0⟩ : KnownRounds).firstUnchecked
           ≤ (Forward ⟨[0], 0, 10, 0⟩ 5).firstUnchecked) :=
  ⟨by unfold KnownRounds.Inv; decide,
   C8_forward_idempotent_monotone ⟨[0], 0, 10, 0⟩ 5 (by decide) (by decide) (by decide)
     (by unfold KnownRounds.Inv; decide)⟩

/-! ### Support lemmas for the RangeUnchecked scan (C2) -/

theorem countChecked_zero (kr : KnownRounds) (a : Nat) : countChecked kr a 0 = 0 := rfl

theorem countChecked_succ (kr : KnownRounds) (a n : Nat) :
    countChecked kr a (n + 1)
      = (if Checked kr a then 1 else 0) + countChecked kr (a + 1) n := by
  unfold countChecked
  rw [List.range'_succ, List.filter_cons]
  split
  · simp [Nat.add_comm]
  · simp

theorem countChecked_mono (kr : KnownRounds) (a : Nat) : ∀ {m n : Nat}, m ≤ n →
    countChecked kr a m ≤ countChecked kr a n := by
  intro m n h
  unfold countChecked
  have : List.range' a n = List.range' a m ++ List.range' (a + m) (n - m) := by
    rw [List.range'_append_1]
    congr 1
    omega
  rw [this, List.filter_append, List.length_append]
  omega

/-! ### C2 -/

/-- C2 counterexample: at the state with round 0 checked and round 1
unchecked inside the window `[0, 1]`, `RangeUnchecked(0, 10, pred)`
invokes `roundCheck` exactly on the CHECKED round 0 (the ghost trace is
`[0]`) and skips the unchecked round 1 — the opposite of the claim. -/
theorem C2_counterexample :
    (RangeUnchecked ⟨[2 ^ 63], 0, 1, 0⟩ 0 10 (fun _ => true)).2 = [0]
    ∧ Checked ⟨[2 ^ 63], 0, 1, 0⟩ 0 = true
    ∧ Checked ⟨[2 ^ 63], 0, 1, 0⟩ 1 = false := by
  decide

/-- C2 (amended): in the in-window scan of `RangeUnchecked`, a round with
`Checked(i)` FALSE is skipped without invoking `roundCheck` and without
consuming budget, after lowering `earliestChecked` to
`min(earliestChecked, i)`; `roundCheck(i)` is invoked (budget permitting,
where only invoked rounds consume budget) exactly on the rounds with
`Checked(i)` TRUE; and when `roundCheck(i)` returns false,
`earliestChecked` is lowered to at most `i`.  Stated over the scan loop:
the trace equals the checked rounds within budget, the final
`earliestChecked` never exceeds its initial value, is at most every
reachable unchecked round, and at most every invoked round whose
`roundCheck` returned false. -/
theorem C2_in_window_scan (kr : KnownRounds) (pred : Nat → Bool) (maxChecked : Nat) :
    ∀ (fuel i0 n0 e0 : Nat) (tr0 : List Nat),
    scanTrace (ruLoop2 kr pred maxChecked fuel i0 n0 e0 tr0)
      = tr0 ++ (List.range' i0 fuel).filter
          (fun i => Checked kr i && decide (n0 + countChecked kr i0 (i - i0) < maxChecked))
    ∧ scanEarliest (ruLoop2 kr pred maxChecked fuel i0 n0 e0 tr0) ≤ e0
    ∧ (∀ i, i0 ≤ i → i < i0 + fuel → Checked kr i = false →
        n0 + countChecked kr i0 (i - i0) < maxChecked →
        scanEarliest (ruLoop2 kr pred maxChecked fuel i0 n0 e0 tr0) ≤ i)
    ∧ (∀ i, i0 ≤ i → i < i0 + fuel → Checked kr i = true → pred i = false →
        n0 + countChecked kr i0 (i - i0) < maxChecked →
        scanEarliest (ruLoop2 kr pred maxChecked fuel i0 n0 e0 tr0) ≤ i) := by
  intro fuel
  induction fuel with
  | zero =>
      intro i0 n0 e0 tr0
      refine ⟨by simp [ruLoop2, scanTrace], le_refl e0, ?_, ?_⟩
      · intro i _ h2 _ _
        omega
      · intro i _ h2 _ _ _
        omega
  | succ fuel ih =>
      intro i0 n0 e0 tr0
      by_cases hbud : maxChecked ≤ n0
      · have hred : ruLoop2 kr pred maxChecked (fuel + 1) i0 n0 e0 tr0
            = Sum.inl (min e0 i0, tr0) := by
          unfold ruLoop2
          rw [if_pos hbud]
        rw [hred]
        refine ⟨?_, min_le_left e0 i0, ?_, ?_⟩
        · show tr0 = tr0 ++ _
          rw [List.filter_eq_nil_iff.mpr ?_, List.append_nil]
          intro a _
          simp only [Bool.and_eq_true, decide_eq_true_eq, not_and]
          intro _
          omega
        · intro i _ _ _ hbudget
          omega
        · intro i _ _ _ _ hbudget
          omega
      · by_cases hc : Checked kr i0
        · have hred : ruLoop2 kr pred maxChecked (fuel + 1) i0 n0 e0 tr0
              = ruLoop2 kr pred maxChecked fuel (i0 + 1) (n0 + 1)
                  (if !pred i0 && decide (i0 < e0) then i0 else e0) (tr0 ++ [i0]) := by
            conv_lhs => unfold ruLoop2
            rw [if_neg hbud, hc]
            simp
          obtain ⟨ih1, ih2, ih3, ih4⟩ := ih (i0 + 1) (n0 + 1)
            (if !pred i0 && decide (i0 < e0) then i0 else e0) (tr0 ++ [i0])
          have he1 : (if !pred i0 && decide (i0 < e0) then i0 else e0) ≤ e0 := by
            split
            · rename_i h
              rw [Bool.and_eq_true] at h
              have := of_decide_eq_true h.2
              omega
            · exact le_refl e0
          have hcount : ∀ i, i0 + 1 ≤ i →
              countChecked kr i0 (i - i0) = 1 + countChecked kr (i0 + 1) (i - (i0 + 1)) := by
            intro i hge
            have h1 : i - i0 = (i - (i0 + 1)) + 1 := by omega
            rw [h1, countChecked_succ, if_pos hc]
          refine ⟨?_, ?_, ?_, ?_⟩
          · rw [hred, ih1, List.range'_succ, List.filter_cons]
            have hp : (Checked kr i0
                && decide (n0 + countChecked kr i0 (i0 - i0) < maxChecked)) = true := by
              rw [Nat.sub_self, countChecked_zero, hc, Bool.true_and, decide_eq_true_eq]
              omega
            rw [hp, if_pos rfl]
            have hfc : List.filter
                  (fun i => Checked kr i && decide (n0 + countChecked kr i0 (i - i0) < maxChecked))
                  (List.range' (i0 + 1) fuel)
                = List.filter
                  (fun i => Checked kr i
                    && decide (n0 + 1 + countChecked kr (i0 + 1) (i - (i0 + 1)) < maxChecked))
                  (List.range' (i0 + 1) fuel) := by
              apply List.filter_congr
              intro i hi
              have hge : i0 + 1 ≤ i := (List.mem_range'_1.mp hi).1
              congr 1
              rw [hcount i hge]
              exact decide_eq_decide.mpr (by omega)
            rw [hfc]
            simp
          · rw [hred]
            exact le_trans ih2 he1
          · intro i h1 h2 hcf hbudget
            rw [hred]
            rcases Nat.eq_or_lt_of_le h1 with rfl | hgt
            · rw [hc] at hcf
              exact absurd hcf (by simp)
            · refine ih3 i (by omega) (by omega) hcf ?_
              rw [hcount i (by omega)] at hbudget
              omega
          · intro i h1 h2 hct hpf hbudget
            rw [hred]
            rcases Nat.eq_or_lt_of_le h1 with rfl | hgt
            · refine le_trans ih2 ?_
              rw [hpf]
              by_cases hlt : i0 < e0
              · rw [if_pos (by simp [hlt])]
              · rw [if_neg (by simp [hlt])]
                omega
            · refine ih4 i (by omega) (by omega) hct hpf ?_
              rw [hcount i (by omega)] at hbudget
              omega
        · have hcb : Checked kr i0 = false := by
            simpa using hc
          have hred : ruLoop2 kr pred maxChecked (fuel + 1) i0 n0 e0 tr0
              = ruLoop2 kr pred maxChecked fuel (i0 + 1) n0 (min e0 i0) tr0 := by
            conv_lhs => unfold ruLoop2
            rw [if_neg hbud, hcb]
            simp
          obtain ⟨ih1, ih2, ih3, ih4⟩ := ih (i0 + 1) n0 (min e0 i0) tr0
          have hcount : ∀ i, i0 + 1 ≤ i →
              countChecked kr i0 (i - i0) = countChecked kr (i0 + 1) (i - (i0 + 1)) := by
            intro i hge
            have h1 : i - i0 = (i - (i0 + 1)) + 1 := by omega
            rw [h1, countChecked_succ, if_neg (by simp [hcb]), Nat.zero_add]
          refine ⟨?_, ?_, ?_, ?_⟩
          · rw [hred, ih1, List.range'_succ, List.filter_cons]
            have hp : (Checked kr i0
                && decide (n0 + countChecked kr i0 (i0 - i0) < maxChecked)) = false := by
              rw [hcb, Bool.false_and]
            rw [hp]
            simp only [Bool.false_eq_true, if_false]
            have hfc : List.filter
                  (fun i => Checked kr i && decide (n0 + countChecked kr i0 (i - i0) < maxChecked))
                  (List.range' (i0 + 1) fuel)
                = List.filter
                  (fun i => Checked kr i
                    && decide (n0 + countChecked kr (i0 + 1) (i - (i0 + 1)) < maxChecked))
                  (List.range' (i0 + 1) fuel) := by
              apply List.filter_congr
              intro i hi
              have hge : i0 + 1 ≤ i := (List.mem_range'_1.mp hi).1
              congr 1
              rw [hcount i hge]
            rw [hfc]
          · rw [hred]
            exact le_trans ih2 (min_le_left e0 i0)
          · intro i h1 h2 hcf hbudget
            rw [hred]
            rcases Nat.eq_or_lt_of_le h1 with rfl | hgt
            · exact le_trans ih2 (min_le_right e0 i0)
            · refine ih3 i (by omega) (by omega) hcf ?_
              rw [hcount i (by omega)] at hbudget
              omega
          · intro i h1 h2 hct hpf hbudget
            rw [hred]
            rcases Nat.eq_or_lt_of_le h1 with rfl | hgt
            · rw [hcb] at hct
              exact absurd hct (by simp)
            · refine ih4 i (by omega) (by omega) hct hpf ?_
              rw [hcount i (by omega)] at hbudget
              omega

/-- Witness for the C2 theorem at the counterexample state: the trace of a
two-round scan is `[0]`, and the unchecked round 1 bounds the final
`earliestChecked`. -/
theorem C2_in_window_scan_witness :
    scanTrace (ruLoop2 ⟨[2 ^ 63], 0, 1, 0⟩ (fun _ => true) 10 2 0 0 (U64 - 1) []) = [0]
    ∧ scanEarliest (ruLoop2 ⟨[2 ^ 63], 0, 1, 0⟩ (fun _ => true) 10 2 0 0 (U64 - 1) []) ≤ 1 := by
  constructor
  · have h := (C2_in_window_scan ⟨[2 ^ 63], 0, 1, 0⟩ (fun _ => true) 10 2 0 0 (U64 - 1) []).1
    rw [h]
    decide
  · exact (C2_in_window_scan ⟨[2 ^ 63], 0, 1, 0⟩ (fun _ => true) 10 2 0 0 (U64 - 1) []).2.2.1
      1 (by decide) (by decide) (by decide) (by decide)

/-! ### Support lemmas for the snapshot roundtrip (C4) -/

theorem bytesToWordBE_wordToBytesBE (w : Nat) (h : w < U64) :
    bytesToWordBE (wordToBytesBE w) = w := by
  have hred : bytesToWordBE (wordToBytesBE w)
      = (((((((0 * 256 + w / 72057594037927936 % 256) * 256 + w / 281474976710656 % 256)
        * 256 + w / 1099511627776 % 256) * 256 + w / 4294967296 % 256) * 256
        + w / 16777216 % 256) * 256 + w / 65536 % 256) * 256 + w / 256 % 256) * 256
        + w / 1 % 256 := rfl
  rw [hred]
  unfold U64 at h
  omega

theorem unmarshal_marshal (b : List Nat) (h : ∀ w ∈ b, w < U64) :
    u64unmarshal (u64marshal b) = b := by
  induction b with
  | nil => rfl
  | cons w bs ih =>
      have hw : w < U64 := h w (List.mem_cons_self w bs)
      have hrest := ih (fun x hx => h x (List.mem_cons_of_mem w hx))
      show u64unmarshal (wordToBytesBE w ++ u64marshal bs) = w :: bs
      show u64unmarshal (w / 72057594037927936 % 256 :: w / 281474976710656 % 256
        :: w / 1099511627776 % 256 :: w / 4294967296 % 256 :: w / 16777216 % 256
        :: w / 65536 % 256 :: w / 256 % 256 :: w / 1 % 256 :: u64marshal bs) = w :: bs
      unfold u64unmarshal
      rw [hrest]
      have hbw := bytesToWordBE_wordToBytesBE w hw
      rw [show wordToBytesBE w = [w / 72057594037927936 % 256, w / 281474976710656 % 256,
        w / 1099511627776 % 256, w / 4294967296 % 256, w / 16777216 % 256,
        w / 65536 % 256, w / 256 % 256, w / 1 % 256] from rfl] at hbw
      rw [hbw]

theorem mod_mul64 (m s W : Nat) (hs : s < 64) :
    (64 * m + s) % (64 * W) = 64 * (m % W) + s := by
  rcases Nat.eq_zero_or_pos W with rfl | hW
  · simp
  · have hdm := Nat.div_add_mod m W
    have h1 : 64 * m + s = (64 * W) * (m / W) + (64 * (m % W) + s) := by
      have hexp : (64 * W) * (m / W) = 64 * (W * (m / W)) := by ring
      omega
    rw [h1, Nat.mul_add_mod]
    apply Nat.mod_eq_of_lt
    have := Nat.mod_lt m hW
    omega

theorem div_mul64 (m s : Nat) (hs : s < 64) : (64 * m + s) / 64 = m := by
  omega

theorem getD_map_range (f : Nat → Nat) (n i : Nat) (h : i < n) :
    ((List.range n).map f).getD i 0 = f i := by
  rw [List.getD_eq_getElem?_getD, List.getElem?_map, List.getElem?_range h]
  rfl

theorem getD_append_left (l1 l2 : List Nat) (i : Nat) (h : i < l1.length) :
    (l1 ++ l2).getD i 0 = l1.getD i 0 := by
  rw [List.getD_eq_getElem?_getD, List.getD_eq_getElem?_getD, List.getElem?_append_left h]

theorem emod_shift_sub (a b n : Int) : ((a + b) % n - a) % n = b % n := by
  rw [Int.sub_emod, Int.emod_emod_of_dvd _ dvd_rfl, ← Int.sub_emod]
  congr 1
  ring

theorem u64get_ofNat (buff : List Nat) (p : Nat) (hp : p < 64 * buff.length) :
    u64get buff ((p : Nat) : Int) = Nat.testBit (buff.getD (p / 64) 0) (63 - p % 64) := by
  unfold u64get
  have h1 : ((p : Nat) : Int) % ((64 * buff.length : Nat) : Int) = ((p : Nat) : Int) :=
    Int.emod_eq_of_lt (by positivity) (by exact_mod_cast hp)
  rw [h1]
  rw [Int.toNat_natCast]

theorem tmod_cast_nat (a n : Nat) :
    Int.tmod ((a : Nat) : Int) ((n : Nat) : Int) = ((a % n : Nat) : Int) := by
  rw [Int.tmod_eq_emod (by positivity) (by positivity)]
  push_cast
  rfl

theorem delta_block (sB q W : Nat) (hq : q < W) :
    ((((sB + q) % W : Nat) : Int) - ((sB : Nat) : Int)) % ((W : Nat) : Int) = (q : Int) := by
  have h1 : (((sB + q) % W : Nat) : Int) = (((sB : Nat) : Int) + ((q : Nat) : Int)) % ((W : Nat) : Int) := by
    push_cast
    rfl
  rw [h1, emod_shift_sub]
  exact Int.emod_eq_of_lt (by positivity) (by exact_mod_cast hq)

theorem u64convertLoc_ofNat (buff : List Nat) (p : Nat) (hp : p < 64 * buff.length) :
    u64convertLoc buff ((p : Nat) : Int) = (p / 64, p % 64) := by
  simp only [u64convertLoc]
  rw [show ((p : Nat) : Int) % ((64 * buff.length : Nat) : Int) = ((p : Nat) : Int) from
    Int.emod_eq_of_lt (by positivity) (by exact_mod_cast hp)]
  rw [Int.toNat_natCast]

theorem getD_mem_bound (l : List Nat) (i : Nat) (h : ∀ w ∈ l, w < U64) : l.getD i 0 < U64 := by
  rcases Nat.lt_or_ge i l.length with hi | hi
  · rw [List.getD_eq_getElem?_getD, List.getElem?_eq_getElem hi, Option.getD_some]
    exact h _ (List.getElem_mem hi)
  · rw [List.getD_eq_getElem?_getD, List.getElem?_eq_none (by omega), Option.getD_none]
    decide

theorem Checked_low {k : KnownRounds} {rid : Nat} (h : rid < k.firstUnchecked) :
    Checked k rid = true := by
  unfold Checked
  rw [if_pos h]

theorem Checked_high {k : KnownRounds} {rid : Nat} (h1 : ¬ rid < k.firstUnchecked)
    (h2 : k.lastChecked < rid) : Checked k rid = false := by
  unfold Checked
  rw [if_neg h1, if_pos h2]

theorem Checked_mid {k : KnownRounds} {rid : Nat} (h1 : ¬ rid < k.firstUnchecked)
    (h2 : ¬ k.lastChecked < rid) :
    Checked k rid = u64get k.bitStream (getBitStreamPos k rid) := by
  unfold Checked
  rw [if_neg h1, if_neg h2]

theorem unmarshalDKR_ok (kr2 : KnownRounds) (bs : List Nat) (f l : Nat)
    (h0 : ¬ kr2.bitStream.length = 0)
    (hle : (u64unmarshal bs).length ≤ kr2.bitStream.length) :
    unmarshalDKR kr2 { BitStream := bs, FirstUnchecked := f, LastChecked := l }
      = Except.ok
        { bitStream := goCopy (goCopy kr2.bitStream (u64unmarshal bs)) (u64unmarshal bs)
          firstUnchecked := f
          lastChecked := l
          fuPos := ((f % 64 : Nat) : Int) } := by
  simp only [unmarshalDKR]
  rw [if_neg h0, if_pos hle]

/-- C4: Marshal followed by Unmarshal into a KnownRounds whose buffer has at
least as many words as the compressed active span succeeds, preserves both
cursors, and preserves `Checked(rid)` for every round id — PROVIDED the
active span does not wrap inside the source buffer
(`firstUnchecked % 64 + (lastChecked - firstUnchecked) < Len`, a condition
the claim's "data-model invariants" do not imply; see `C4_counterexample`)
and `fuPos` is bit-aligned with `firstUnchecked` modulo 64. -/
theorem C4_roundtrip (kr kr2 : KnownRounds)
    (hW : 0 < kr.bitStream.length)
    (hC63 : kr.Len ≤ 2 ^ 63)
    (hwords : ∀ w ∈ kr.bitStream, w < U64)
    (hfuU : kr.firstUnchecked < U64) (hlcU : kr.lastChecked < U64)
    (hfp0 : 0 ≤ kr.fuPos) (hfpC : kr.fuPos < ((kr.Len : Nat) : Int))
    (hfp64 : kr.fuPos % 64 = ((kr.firstUnchecked % 64 : Nat) : Int))
    (hInv : kr.Inv)
    (hNoWrap : kr.firstUnchecked ≤ kr.lastChecked →
      kr.firstUnchecked % 64 + (kr.lastChecked - kr.firstUnchecked) < kr.Len)
    (hspan : marshalSpan kr ≤ kr2.bitStream.length) :
    ∃ kr2', unmarshalDKR kr2 (marshalDKR kr) = Except.ok kr2'
      ∧ kr2'.firstUnchecked = kr.firstUnchecked
      ∧ kr2'.lastChecked = kr.lastChecked
      ∧ ∀ rid : Nat, Checked kr2' rid = Checked kr rid := by
  have hL64 : kr.Len = 64 * kr.bitStream.length := by
    unfold KnownRounds.Len
    ring
  have hfpN : ((kr.fuPos.toNat : Nat) : Int) = kr.fuPos := Int.toNat_of_nonneg hfp0
  have hfpNC : kr.fuPos.toNat < kr.Len := by omega
  have hfpN64 : kr.fuPos.toNat % 64 = kr.firstUnchecked % 64 := by omega
  have hstart : getBitStreamPos kr kr.firstUnchecked = kr.fuPos := by
    simp only [getBitStreamPos]
    rw [if_neg (lt_irrefl _), sub64_self, toInt64_zero, add_zero]
    exact tmod_eq_self_of hfp0 (Or.inl hfpC)
  have hstartN : getBitStreamPos kr kr.firstUnchecked = ((kr.fuPos.toNat : Nat) : Int) := by
    rw [hstart]
    exact hfpN.symm
  have hsB : (u64convertLoc kr.bitStream (getBitStreamPos kr kr.firstUnchecked)).1
      = kr.fuPos.toNat / 64 := by
    rw [hstartN, u64convertLoc_ofNat _ _ (by omega)]
  set bL : List Nat := (List.range (marshalSpan kr)).map
      (fun i => kr.bitStream.getD ((i + kr.fuPos.toNat / 64) % kr.bitStream.length) 0) with hbL
  have hbLlen : bL.length = marshalSpan kr := by
    rw [hbL]
    simp
  have hbw : ∀ w ∈ bL, w < U64 := by
    intro w hw
    rw [hbL, List.mem_map] at hw
    obtain ⟨i, hi, rfl⟩ := hw
    exact getD_mem_bound _ _ hwords
  have hdkr : marshalDKR kr =
      { BitStream := u64marshal bL
        FirstUnchecked := kr.firstUnchecked
        LastChecked := kr.lastChecked } := by
    rw [hbL]
    simp only [marshalDKR]
    rw [hsB]
  have hum : u64unmarshal (u64marshal bL) = bL := unmarshal_marshal bL hbw
  have hlen1 : 0 < marshalSpan kr := by
    simp only [marshalSpan, u64delta]
    omega
  have hlen2 : 0 < kr2.bitStream.length := lt_of_lt_of_le hlen1 hspan
  have hg1 : goCopy kr2.bitStream bL = bL ++ kr2.bitStream.drop bL.length := by
    unfold goCopy
    rw [if_pos (by rw [hbLlen]; exact hspan)]
  have hg2 : goCopy (bL ++ kr2.bitStream.drop bL.length) bL
      = bL ++ kr2.bitStream.drop bL.length := by
    unfold goCopy
    rw [if_pos (by rw [List.length_append]; omega), List.drop_left]
  have hru0 := unmarshalDKR_ok kr2 (u64marshal bL) kr.firstUnchecked kr.lastChecked
      (by omega) (by rw [hum, hbLlen]; exact hspan)
  rw [hum, hg1, hg2] at hru0
  have hru : unmarshalDKR kr2 (marshalDKR kr) = Except.ok
      { bitStream := bL ++ kr2.bitStream.drop bL.length
        firstUnchecked := kr.firstUnchecked
        lastChecked := kr.lastChecked
        fuPos := ((kr.firstUnchecked % 64 : Nat) : Int) } := by
    rw [hdkr, hru0]
  set krB : KnownRounds :=
    { bitStream := bL ++ kr2.bitStream.drop bL.length
      firstUnchecked := kr.firstUnchecked
      lastChecked := kr.lastChecked
      fuPos := ((kr.firstUnchecked % 64 : Nat) : Int) } with hkrB
  have hBfu : krB.firstUnchecked = kr.firstUnchecked := by rw [hkrB]
  have hBlc : krB.lastChecked = kr.lastChecked := by rw [hkrB]
  have hBfp : krB.fuPos = ((kr.firstUnchecked % 64 : Nat) : Int) := by rw [hkrB]
  have hBbs : krB.bitStream = bL ++ kr2.bitStream.drop bL.length := by rw [hkrB]
  have hBlen : krB.bitStream.length = kr2.bitStream.length := by
    rw [hBbs, List.length_append, List.length_drop, hbLlen]
    omega
  refine ⟨krB, hru, hBfu, hBlc, ?_⟩
  intro rid
  by_cases h1 : rid < kr.firstUnchecked
  · rw [Checked_low (show rid < krB.firstUnchecked from by rw [hBfu]; exact h1),
      Checked_low h1]
  by_cases h2 : kr.lastChecked < rid
  · rw [Checked_high (show ¬ rid < krB.firstUnchecked from by rw [hBfu]; exact h1)
      (show krB.lastChecked < rid from by rw [hBlc]; exact h2),
      Checked_high h1 h2]
  rw [Checked_mid (show ¬ rid < krB.firstUnchecked from by rw [hBfu]; exact h1)
      (show ¬ krB.lastChecked < rid from by rw [hBlc]; exact h2),
    Checked_mid h1 h2]
  have hle : kr.firstUnchecked ≤ kr.lastChecked := by omega
  have hnw := hNoWrap hle
  have hD63' : kr.lastChecked - kr.firstUnchecked < 2 ^ 63 := by omega
  have hposK : ∀ s : Nat, kr.firstUnchecked ≤ s → s - kr.firstUnchecked < 2 ^ 63 → s < U64 →
      getBitStreamPos kr s
        = (((kr.fuPos.toNat + (s - kr.firstUnchecked)) % kr.Len : Nat) : Int) := by
    intro s hs h63 hsU
    simp only [getBitStreamPos]
    rw [if_neg (by omega), sub64_of_le hs hsU, toInt64_of_lt h63]
    rw [show kr.fuPos + ((s - kr.firstUnchecked : Nat) : Int)
        = (((kr.fuPos.toNat + (s - kr.firstUnchecked)) : Nat) : Int) from by omega]
    exact tmod_cast_nat _ _
  have hdec : ∀ d : Nat, (kr.fuPos.toNat + d) % kr.Len
      = 64 * ((kr.fuPos.toNat / 64 + (kr.firstUnchecked % 64 + d) / 64) % kr.bitStream.length)
        + (kr.firstUnchecked % 64 + d) % 64 := by
    intro d
    have h3 : kr.fuPos.toNat + d
        = 64 * (kr.fuPos.toNat / 64 + (kr.firstUnchecked % 64 + d) / 64)
          + (kr.firstUnchecked % 64 + d) % 64 := by omega
    rw [h3, hL64, mod_mul64 _ _ _ (by omega)]
  have hlcpos := hposK kr.lastChecked hle hD63' hlcU
  have hlcltC : (kr.fuPos.toNat + (kr.lastChecked - kr.firstUnchecked)) % kr.Len
      < 64 * kr.bitStream.length := by
    rw [← hL64]
    exact Nat.mod_lt _ (by omega)
  have hqW : (kr.firstUnchecked % 64 + (kr.lastChecked - kr.firstUnchecked)) / 64
      < kr.bitStream.length := by omega
  have heB : (u64convertLoc kr.bitStream (getBitStreamPos kr kr.lastChecked)).1
      = (kr.fuPos.toNat / 64
          + (kr.firstUnchecked % 64 + (kr.lastChecked - kr.firstUnchecked)) / 64)
        % kr.bitStream.length := by
    rw [hlcpos, u64convertLoc_ofNat _ _ hlcltC]
    rw [hdec (kr.lastChecked - kr.firstUnchecked)]
    exact div_mul64 _ _ (by omega)
  have hspanval : marshalSpan kr
      = (kr.firstUnchecked % 64 + (kr.lastChecked - kr.firstUnchecked)) / 64 + 1 := by
    simp only [marshalSpan, u64delta]
    rw [hsB, heB, delta_block _ _ _ hqW, Int.toNat_natCast]
  have hriU : rid < U64 := by omega
  have hd63 : rid - kr.firstUnchecked < 2 ^ 63 := by omega
  have hpos := hposK rid (by omega) hd63 hriU
  have hpltK : (kr.fuPos.toNat + (rid - kr.firstUnchecked)) % kr.Len
      < 64 * kr.bitStream.length := by
    rw [← hL64]
    exact Nat.mod_lt _ (by omega)
  have hword : (kr.fuPos.toNat + (rid - kr.firstUnchecked)) % kr.Len / 64
      = (kr.fuPos.toNat / 64 + (kr.firstUnchecked % 64 + (rid - kr.firstUnchecked)) / 64)
          % kr.bitStream.length := by
    rw [hdec]
    exact div_mul64 _ _ (by omega)
  have hbit : (kr.fuPos.toNat + (rid - kr.firstUnchecked)) % kr.Len % 64
      = (kr.firstUnchecked % 64 + (rid - kr.firstUnchecked)) % 64 := by
    rw [hdec]
    omega
  have hrdlen : kr.firstUnchecked % 64 + (rid - kr.firstUnchecked) < 64 * marshalSpan kr := by
    rw [hspanval]
    omega
  have hrdB : kr.firstUnchecked % 64 + (rid - kr.firstUnchecked) < krB.Len := by
    have hBL : krB.Len = krB.bitStream.length * 64 := rfl
    rw [hBL, hBlen]
    omega
  have hrdB' : kr.firstUnchecked % 64 + (rid - kr.firstUnchecked)
      < 64 * krB.bitStream.length := by
    have hBL : krB.Len = krB.bitStream.length * 64 := rfl
    omega
  have hposB : getBitStreamPos krB rid
      = (((kr.firstUnchecked % 64 + (rid - kr.firstUnchecked)) : Nat) : Int) := by
    simp only [getBitStreamPos]
    rw [if_neg h1, sub64_of_le (by omega) hriU, toInt64_of_lt hd63]
    rw [show ((kr.firstUnchecked % 64 : Nat) : Int) + ((rid - kr.firstUnchecked : Nat) : Int)
        = (((kr.firstUnchecked % 64 + (rid - kr.firstUnchecked)) : Nat) : Int) from by omega]
    rw [tmod_cast_nat]
    rw [Nat.mod_eq_of_lt hrdB]
  have hwlt : (kr.firstUnchecked % 64 + (rid - kr.firstUnchecked)) / 64 < bL.length := by
    rw [hbLlen]
    omega
  have hgetB : krB.bitStream.getD
        ((kr.firstUnchecked % 64 + (rid - kr.firstUnchecked)) / 64) 0
      = kr.bitStream.getD
          (((kr.firstUnchecked % 64 + (rid - kr.firstUnchecked)) / 64 + kr.fuPos.toNat / 64)
            % kr.bitStream.length) 0 := by
    rw [hBbs, getD_append_left _ _ _ hwlt, hbL,
      getD_map_range _ _ _ (by rw [← hbLlen]; exact hwlt)]
  rw [hposB, u64get_ofNat _ _ hrdB', hgetB, hpos, u64get_ofNat _ _ hpltK, hword, hbit,
    Nat.add_comm ((kr.firstUnchecked % 64 + (rid - kr.firstUnchecked)) / 64)
      (kr.fuPos.toNat / 64)]

/-- C4, counterexample to the claim as stated: the state
`bitStream = [2], firstUnchecked = 63, lastChecked = 126, fuPos = 63`
satisfies every section-3 data-model invariant (`fu ≤ lc+1`,
`lc - fu = 63 < C = 64`, `fuPos = fu mod C`), its compressed span (1 word)
fits in the 2-word target, Unmarshal succeeds and preserves the cursors —
yet `Checked(126)` flips from `true` to `false` across the roundtrip,
because the active span wraps around the 1-word source buffer and the
rotation-by-whole-words of Marshal cannot re-linearise it. -/
theorem C4_counterexample :
    ∃ kr kr2 kr2' : KnownRounds,
      kr.Inv
      ∧ kr.lastChecked - kr.firstUnchecked < kr.Len
      ∧ kr.fuPos = ((kr.firstUnchecked % kr.Len : Nat) : Int)
      ∧ marshalSpan kr ≤ kr2.bitStream.length
      ∧ unmarshalDKR kr2 (marshalDKR kr) = Except.ok kr2'
      ∧ kr2'.firstUnchecked = kr.firstUnchecked
      ∧ kr2'.lastChecked = kr.lastChecked
      ∧ Checked kr 126 = true
      ∧ Checked kr2' 126 = false := by
  refine ⟨⟨[2], 63, 126, 63⟩, ⟨[0, 0], 0, 0, 0⟩, ⟨[2, 0], 63, 126, 63⟩,
    by unfold KnownRounds.Inv; decide, by decide, by decide, by decide, by rfl,
    by rfl, by rfl, by decide, by decide⟩

/-- Witness for `C4_roundtrip` at a concrete input. -/
theorem C4_roundtrip_witness :
    ∃ kr2', unmarshalDKR ⟨[0, 0], 0, 0, 0⟩ (marshalDKR ⟨[0], 0, 0, 0⟩) = Except.ok kr2'
      ∧ kr2'.firstUnchecked = (⟨[0], 0, 0, 0⟩ : KnownRounds).firstUnchecked
      ∧ kr2'.lastChecked = (⟨[0], 0, 0, 0⟩ : KnownRounds).lastChecked
      ∧ ∀ rid : Nat, Checked kr2' rid = Checked ⟨[0], 0, 0, 0⟩ rid :=
  C4_roundtrip ⟨[0], 0, 0, 0⟩ ⟨[0, 0], 0, 0, 0⟩ (by decide) (by decide) (by decide)
    (by decide) (by decide) (by decide) (by decide) (by decide)
    (by unfold KnownRounds.Inv; decide) (by decide) (by decide)

/-! ### Invariant preservation (C6) -/

theorem check_preserves_inv (kr : KnownRounds) (rid : Nat) (hr : rid + 1 < U64)
    (hInv : kr.Inv) : (check kr rid).Inv := by
  by_cases h0 : rid < kr.firstUnchecked
  · have hid : check kr rid = kr := by
      unfold check
      rw [if_pos h0]
    rw [hid]
    exact hInv
  · have hInv' : kr.firstUnchecked ≤ kr.lastChecked + 1 := hInv
    set R := check kr rid with hR
    clear_value R
    rw [check] at hR
    rw [if_neg h0] at hR
    simp only [KnownRounds.eta] at hR
    set pos := getBitStreamPos kr rid with hpos
    set b1 := u64set kr.bitStream pos with hb1
    set kr1 : KnownRounds := { kr with bitStream := b1 } with hkr1
    set q := getBitStreamPos kr1 ((kr.lastChecked + 1) % U64) with hq
    set b2 := u64clearRange b1 q pos with hb2
    set kr2 : KnownRounds :=
      if kr.lastChecked < rid then ({ kr with bitStream := b2, lastChecked := rid } : KnownRounds)
      else kr1 with hkr2
    set fp := getBitStreamPos kr2 ((rid + 1) % U64) with hfp
    set krS : KnownRounds :=
      { bitStream := u64clear kr2.bitStream fp
        firstUnchecked := (rid + 1) % U64
        lastChecked := (rid + 1) % U64
        fuPos := fp } with hkrS
    set kr3 : KnownRounds :=
      if getBitStreamPos kr2 kr2.firstUnchecked = pos then
        if getBitStreamPos kr2 kr2.lastChecked = pos then krS
        else migrateFirstUnchecked kr2 rid
      else kr2 with hkr3
    set nf := sub64 ((rid + 1) % U64) kr3.Len with hnf
    set kr3' : KnownRounds := { kr3 with fuPos := getBitStreamPos kr3 nf, firstUnchecked := nf }
      with hkr3'
    set kr4 : KnownRounds :=
      if kr3.firstUnchecked < rid ∧ kr3.Len ≤ sub64 rid kr3.firstUnchecked then
        migrateFirstUnchecked kr3' rid
      else kr3 with hkr4
    have hfu2 : kr2.firstUnchecked = kr.firstUnchecked := by
      rw [hkr2]
      split <;> rfl
    have hlc2r : rid ≤ kr2.lastChecked := by
      rw [hkr2]
      split
      · exact Nat.le_refl rid
      · rename_i h
        exact Nat.le_of_not_lt h
    have hInv2 : kr2.firstUnchecked ≤ kr2.lastChecked + 1 := by
      rw [hfu2, hkr2]
      split
      · show kr.firstUnchecked ≤ rid + 1
        omega
      · show kr.firstUnchecked ≤ kr.lastChecked + 1
        exact hInv'
    have hgfu : R.firstUnchecked = kr4.firstUnchecked := by rw [hR]
    have hglc : R.lastChecked = kr4.lastChecked := by rw [hR]
    show R.firstUnchecked ≤ R.lastChecked + 1
    rw [hgfu, hglc]
    have hlc3' : kr3'.lastChecked = kr3.lastChecked := by rw [hkr3']
    have tail : rid ≤ kr3.lastChecked → kr3.firstUnchecked ≤ kr3.lastChecked + 1 →
        kr4.firstUnchecked ≤ kr4.lastChecked + 1 := by
      intro hr3 hInv3
      by_cases c5 : kr3.firstUnchecked < rid ∧ kr3.Len ≤ sub64 rid kr3.firstUnchecked
      · rw [if_pos c5] at hkr4
        have h1 : kr4.firstUnchecked ≤ kr3'.lastChecked := by
          rw [hkr4]
          exact migrateLoop_le kr3' _ rid (show rid ≤ kr3'.lastChecked from hr3)
        have h2 : kr4.lastChecked = kr3'.lastChecked := by
          rw [hkr4]
          rfl
        omega
      · rw [if_neg c5] at hkr4
        rw [hkr4]
        exact hInv3
    by_cases c3a : getBitStreamPos kr2 kr2.firstUnchecked = pos
    · by_cases c3b : getBitStreamPos kr2 kr2.lastChecked = pos
      · rw [if_pos c3a, if_pos c3b] at hkr3
        have hfu3 : kr3.firstUnchecked = (rid + 1) % U64 := by rw [hkr3, hkrS]
        have hlc3 : kr3.lastChecked = (rid + 1) % U64 := by rw [hkr3, hkrS]
        have hmod : (rid + 1) % U64 = rid + 1 := Nat.mod_eq_of_lt hr
        have hc5 : ¬ (kr3.firstUnchecked < rid ∧ kr3.Len ≤ sub64 rid kr3.firstUnchecked) := by
          intro hc
          rw [hfu3, hmod] at hc
          omega
        rw [if_neg hc5] at hkr4
        rw [hkr4]
        omega
      · rw [if_pos c3a, if_neg c3b] at hkr3
        apply tail
        · rw [hkr3]
          show rid ≤ kr2.lastChecked
          exact hlc2r
        · rw [hkr3]
          show migrateLoop kr2 (kr2.lastChecked - rid) rid ≤ kr2.lastChecked + 1
          exact Nat.le_succ_of_le (migrateLoop_le kr2 _ rid hlc2r)
    · rw [if_neg c3a] at hkr3
      apply tail
      · rw [hkr3]
        exact hlc2r
      · rw [hkr3]
        exact hInv2

theorem forward_preserves_inv (kr : KnownRounds) (rid : Nat) (hInv : kr.Inv) :
    (Forward kr rid).Inv := by
  unfold Forward KnownRounds.Inv
  split
  · exact Nat.le_succ rid
  · split
    · rename_i h1 h2
      show migrateLoop kr (kr.lastChecked - rid) rid ≤ kr.lastChecked + 1
      exact Nat.le_succ_of_le (migrateLoop_le kr _ rid (Nat.le_of_not_lt h1))
    · exact hInv

theorem forcecheck_preserves_inv (kr : KnownRounds) (rid : Nat) (hr : rid + 1 < U64)
    (hInv : kr.Inv) : (ForceCheck kr rid).Inv := by
  show (check (if checkPanics kr rid = true then Forward kr (sub64 rid kr.Len) else kr) rid).Inv
  split
  · exact check_preserves_inv _ rid hr (forward_preserves_inv kr _ hInv)
  · exact check_preserves_inv _ rid hr hInv

theorem Check_preserves_inv (kr : KnownRounds) (rid : Nat) (res : KnownRounds)
    (hr : rid + 1 < U64) (hInv : kr.Inv) (h : Check kr rid = some res) : res.Inv := by
  unfold Check at h
  split at h
  · exact absurd h (by simp)
  · have h' := Option.some.inj h
    rw [← h']
    exact check_preserves_inv kr rid hr hInv

theorem rumrLoop1_inv (result : List Nat) (maskFu : Nat) (pred : Nat → Bool) (maxChecked : Int)
    (hpred : ∀ i, pred i = true → i + 1 < U64) :
    ∀ (fuel i : Nat) (n : Int) (kr : KnownRounds) (res : KnownRounds × Int),
      kr.Inv → rumrLoop1 result maskFu pred maxChecked fuel i n kr = some res → res.1.Inv
  | 0, i, n, kr, res, hk, heq => by
      unfold rumrLoop1 at heq
      have h' := Option.some.inj heq
      rw [← h']
      exact hk
  | fuel + 1, i, n, kr, res, hk, heq => by
      unfold rumrLoop1 at heq
      split at heq
      · split at heq
        · exact absurd heq (by simp)
        · rename_i kr' hsome
          have hk' : kr'.Inv := by
            by_cases hc : (!u64get result (toInt64 (sub64 i maskFu)) && pred i) = true
            · rw [if_pos hc] at hsome
              have hpi : pred i = true := ((Bool.and_eq_true _ _).mp hc).2
              exact Check_preserves_inv kr i kr' (hpred i hpi) hk hsome
            · rw [if_neg hc] at hsome
              have h' := Option.some.inj hsome
              rw [← h']
              exact hk
          exact rumrLoop1_inv result maskFu pred maxChecked hpred fuel _ _ kr' res hk' heq
      · have h' := Option.some.inj heq
        rw [← h']
        exact hk

theorem rumrLoop2_inv (pred : Nat → Bool) (end_ : Nat) (maxChecked : Int)
    (hpred : ∀ i, pred i = true → i + 1 < U64) :
    ∀ (fuel i : Nat) (n : Int) (kr : KnownRounds) (res : KnownRounds),
      kr.Inv → rumrLoop2 pred end_ maxChecked fuel i n kr = some res → res.Inv
  | 0, i, n, kr, res, hk, heq => by
      unfold rumrLoop2 at heq
      have h' := Option.some.inj heq
      rw [← h']
      exact hk
  | fuel + 1, i, n, kr, res, hk, heq => by
      unfold rumrLoop2 at heq
      split at heq
      · split at heq
        · exact absurd heq (by simp)
        · rename_i kr' hsome
          have hk' : kr'.Inv := by
            by_cases hc : (!Checked kr i && pred i) = true
            · rw [if_pos hc] at hsome
              have hpi : pred i = true := ((Bool.and_eq_true _ _).mp hc).2
              exact Check_preserves_inv kr i kr' (hpred i hpi) hk hsome
            · rw [if_neg hc] at hsome
              have h' := Option.some.inj hsome
              rw [← h']
              exact hk
          exact rumrLoop2_inv pred end_ maxChecked hpred fuel _ _ kr' res hk' heq
      · have h' := Option.some.inj heq
        rw [← h']
        exact hk

theorem rumr_preserves_inv (kr mask : KnownRounds) (pred : Nat → Bool) (start end_ : Nat)
    (maxChecked : Int) (res : KnownRounds × KnownRounds)
    (hpred : ∀ i, pred i = true → i + 1 < U64)
    (hkr : kr.Inv) (hmask : mask.Inv)
    (heq : RangeUncheckedMaskedRange kr mask pred start end_ maxChecked = some res) :
    res.1.Inv ∧ res.2.Inv := by
  simp only [RangeUncheckedMaskedRange] at heq
  split at heq
  · split at heq
    · exact absurd heq (by simp)
    · rename_i kr1 n hsome1
      split at heq
      · exact absurd heq (by simp)
      · rename_i kr2 hsome2
        have h1 : kr1.Inv := rumrLoop1_inv _ _ pred maxChecked hpred _ _ _ kr (kr1, n) hkr hsome1
        have h2 : kr2.Inv := rumrLoop2_inv pred _ maxChecked hpred _ _ _ kr1 kr2 h1 hsome2
        have h' := Option.some.inj heq
        rw [← h']
        exact ⟨h2, forward_preserves_inv mask kr.firstUnchecked hmask⟩
  · split at heq
    · exact absurd heq (by simp)
    · rename_i kr2 hsome2
      have h2 : kr2.Inv := rumrLoop2_inv pred _ maxChecked hpred _ _ _ kr kr2 hkr hsome2
      have h' := Option.some.inj heq
      rw [← h']
      exact ⟨h2, hmask⟩

set_option maxRecDepth 16000 in
/-- C6 counterexample: the invariant is NOT preserved by every operation on
every valid sequence.  From `NewKnownRound(1)` (where it holds), the valid
sequence `Forward(2^64−1)` then strict `Check(2^64−1)` (which does not
panic) ends in `firstUnchecked = 2^64−1, lastChecked = 0`: the single-bit
window advance wraps `rid+1` to `0` and the lap correction then fires on
the wrapped cursor, re-pinning `firstUnchecked` at `2^64−1` while
`lastChecked` stays `0` — so `firstUnchecked ≤ lastChecked + 1` fails. -/
theorem C6_counterexample :
    (NewKnownRound 1).Inv
    ∧ (Forward (NewKnownRound 1) (U64 - 1)).Inv
    ∧ Check (Forward (NewKnownRound 1) (U64 - 1)) (U64 - 1)
        = some { bitStream := [1], firstUnchecked := U64 - 1, lastChecked := 0, fuPos := 63 }
    ∧ ¬ ({ bitStream := [1], firstUnchecked := U64 - 1, lastChecked := 0,
           fuPos := 63 } : KnownRounds).Inv := by
  refine ⟨?_, ?_, ?_, ?_⟩
  · unfold KnownRounds.Inv
    decide
  · unfold KnownRounds.Inv
    decide
  · decide
  · unfold KnownRounds.Inv
    decide

/-- C6: the invariant `firstUnchecked ≤ lastChecked + 1` holds in every
freshly constructed state and is preserved by the shared `check` body, the
strict `Check`, `ForceCheck`, `Forward`, `RangeUncheckedMaskedRange` and
`RangeUncheckedMasked` — PROVIDED every round id fed to a bit-setting
operation satisfies `rid + 1 < 2^64` (for the range operations: every round
the predicate accepts), the condition `C6_counterexample` shows is
necessary.  `RangeUnchecked` never writes the state (its embedding returns
only the scan result), so it preserves the invariant trivially. -/
theorem C6_invariant_preservation :
    (∀ cap : Nat, (NewKnownRound cap).Inv)
    ∧ (∀ (kr : KnownRounds) (rid : Nat), rid + 1 < U64 → kr.Inv → (check kr rid).Inv)
    ∧ (∀ (kr : KnownRounds) (rid : Nat) (res : KnownRounds), rid + 1 < U64 → kr.Inv →
        Check kr rid = some res → res.Inv)
    ∧ (∀ (kr : KnownRounds) (rid : Nat), rid + 1 < U64 → kr.Inv → (ForceCheck kr rid).Inv)
    ∧ (∀ (kr : KnownRounds) (rid : Nat), kr.Inv → (Forward kr rid).Inv)
    ∧ (∀ (kr mask : KnownRounds) (pred : Nat → Bool) (start end_ : Nat) (maxChecked : Int)
        (res : KnownRounds × KnownRounds), (∀ i, pred i = true → i + 1 < U64) →
        kr.Inv → mask.Inv →
        RangeUncheckedMaskedRange kr mask pred start end_ maxChecked = some res →
        res.1.Inv ∧ res.2.Inv)
    ∧ (∀ (kr mask : KnownRounds) (pred : Nat → Bool) (maxChecked : Int)
        (res : KnownRounds × KnownRounds), (∀ i, pred i = true → i + 1 < U64) →
        kr.Inv → mask.Inv →
        RangeUncheckedMasked kr mask pred maxChecked = some res →
        res.1.Inv ∧ res.2.Inv) := by
  refine ⟨?_, ?_, ?_, ?_, ?_, ?_, ?_⟩
  · intro cap
    exact Nat.zero_le _
  · exact fun kr rid hr h => check_preserves_inv kr rid hr h
  · exact fun kr rid res hr h heq => Check_preserves_inv kr rid res hr h heq
  · exact fun kr rid hr h => forcecheck_preserves_inv kr rid hr h
  · exact fun kr rid h => forward_preserves_inv kr rid h
  · exact fun kr mask pred start end_ mc res hp h1 h2 heq =>
      rumr_preserves_inv kr mask pred start end_ mc res hp h1 h2 heq
  · exact fun kr mask pred mc res hp h1 h2 heq =>
      rumr_preserves_inv kr mask pred 0 (U64 - 1) mc res hp h1 h2 heq

/-- Witness for `C6_invariant_preservation` at concrete inputs. -/
theorem C6_invariant_preservation_witness :
    (check (NewKnownRound 1) 5).Inv
    ∧ (ForceCheck (NewKnownRound 1) 70).Inv
    ∧ (Forward (NewKnownRound 1) 3).Inv :=
  ⟨C6_invariant_preservation.2.1 (NewKnownRound 1) 5 (by decide)
      (by unfold KnownRounds.Inv; decide),
    C6_invariant_preservation.2.2.2.1 (NewKnownRound 1) 70 (by decide)
      (by unfold KnownRounds.Inv; decide),
    C6_invariant_preservation.2.2.2.2.1 (NewKnownRound 1) 3
      (by unfold KnownRounds.Inv; decide)⟩
